import Mathlib

/-!
# Verification of the Viking pricing-page monitor (discovery + validation core)

Shallow embedding of the TypeScript sources:

* `src/discovery/url-manifest.ts` (`ManifestManager`: `normalizeUrl`, `mergeUrls`,
  `deduplicateUrls`, `createManifest`),
* `src/discovery/link-crawler.ts` (`LinkCrawler.crawlPage` and helpers),
* `src/tests/pricing-page.spec.ts` (`testPricingPage` and the check functions),
* `src/utils/reporter.ts` (`Reporter.generateSummary`).

Modelling conventions:

* JS strings are Lean `String`/`List Char`; the WHATWG `URL` builtin (an external
  dependency of `normalizeUrl`, `new URL(...).hostname`, …) is modelled by an
  executable parser/serializer over the `scheme://host[:port]/path[?query][#frag]`
  shape it is used on here (no percent-encoding or case folding; non-special
  schemes without `//` are treated as parse failures, which the code maps to the
  catch branch).  `URLSearchParams.sort()` is a stable sort by key, modelled by
  insertion sort on a code-unit lexicographic order; `localeCompare` (an
  implementation-defined comparator per ECMA-402) is modelled by the same
  lexicographic order.
* Timestamps (`Date.now()`, `new Date(iso)` comparisons) are modelled as natural
  numbers; `toISOString` values that are only stored, never compared, stay strings.
* The Playwright page (DOM queries, navigation) is an external collaborator; it is
  modelled as a record of observations (`PageProbe`, `NavOutcome`) that drives the
  branches of the check functions, which are embedded with their exact decision
  structure and result strings.
* JS exceptions are modelled explicitly: functions that can throw return a `Bool`
  "thrown" flag (crawler) or are branched on an `Except`-like outcome (validation).
-/

/-! ## Generic list helpers (JS string/array operations) -/

/-- Split a character list at the first character satisfying `p`: returns the part
before it, and (when found) the matched character together with the rest. -/
def splitFirst (p : Char → Bool) : List Char → List Char × Option (Char × List Char)
  | [] => ([], none)
  | c :: cs =>
    if p c then ([], some (c, cs))
    else
      let r := splitFirst p cs
      (c :: r.1, r.2)

/-- Auxiliary for `splitSep`: accumulator-based splitting on a separator char. -/
def splitSepAux (ch : Char) : List Char → List Char → List (List Char)
  | [], acc => [acc.reverse]
  | c :: cs, acc =>
    if c = ch then acc.reverse :: splitSepAux ch cs []
    else splitSepAux ch cs (c :: acc)

/-- Models JS `String.prototype.split(sep)` for a one-character separator. -/
def splitSep (ch : Char) (l : List Char) : List (List Char) :=
  splitSepAux ch l []

/-- Join character lists with a one-character separator (inverse of `splitSep`). -/
def joinSep (ch : Char) : List (List Char) → List Char
  | [] => []
  | [x] => x
  | x :: xs => x ++ ch :: joinSep ch xs

/-- Does `l` start with the sequence `pre`? (JS `String.prototype.startsWith`.) -/
def startsWithSeq : List Char → List Char → Bool
  | [], _ => true
  | _ :: _, [] => false
  | a :: as, b :: bs => a = b && startsWithSeq as bs

/-- Does `l` contain the sequence `n` (JS `String.prototype.includes`)? -/
def containsSeq (n : List Char) : List Char → Bool
  | [] => startsWithSeq n []
  | c :: cs => startsWithSeq n (c :: cs) || containsSeq n cs

/-- Does `l` end with the sequence `suf`? (JS `String.prototype.endsWith`.) -/
def endsWithSeq (suf l : List Char) : Bool :=
  startsWithSeq suf.reverse l.reverse

/-- Code-unit lexicographic comparison on character lists.  This models both the
key order used by `URLSearchParams.sort()` and (our model of) `localeCompare`. -/
def leChars : List Char → List Char → Bool
  | [], _ => true
  | _ :: _, [] => false
  | a :: as, b :: bs => if a = b then leChars as bs else decide (a < b)

/-! ## Association-list model of JS `Map` / plain objects

JS `Map` preserves insertion order and `set` on an existing key keeps its
position; plain objects behave the same for string keys.  An ordered
association list models both. -/

/-- `Map.prototype.get` / object property read. -/
def alookup {α : Type} (k : String) : List (String × α) → Option α
  | [] => none
  | (k', v) :: rest => if k' = k then some v else alookup k rest

/-- `Map.prototype.set`: replace in place if the key exists, else append. -/
def aset {α : Type} (k : String) (v : α) : List (String × α) → List (String × α)
  | [] => [(k, v)]
  | (k', v') :: rest => if k' = k then (k, v) :: rest else (k', v') :: aset k v rest

/-- `obj[k] = (obj[k] || 0) + 1`, as used for the per-domain / per-source counts. -/
def bump (k : String) (m : List (String × Nat)) : List (String × Nat) :=
  match alookup k m with
  | none => m ++ [(k, 1)]
  | some n => aset k (n + 1) m

/-! ## URL model (WHATWG `URL` as used by this repository)

`new URL(s)` is modelled by `parseUrlChars`, `url.toString()` by `serializeUrl`.
The parser accepts `scheme://host[:port]/path[?query][#fragment]` with a
non-empty scheme and host and an all-digit (possibly empty) port, and fails
(`none`, modelling the constructor throwing) otherwise. -/

structure UrlParts where
  scheme : List Char
  host : List Char
  port : List Char
  path : List Char
  params : List (List Char × List Char)
  frag : Option (List Char)
deriving DecidableEq, Repr

/-- Parse the query string the way `URLSearchParams` does: split on `&`, drop
empty segments, split each segment at the first `=` (missing `=` means empty
value). -/
def parseParam (seg : List Char) : List Char × List Char :=
  match splitFirst (fun c => c = '=') seg with
  | (k, none) => (k, [])
  | (k, some (_, v)) => (k, v)

def parseParams (q : List Char) : List (List Char × List Char) :=
  (splitSep '&' q).filterMap (fun seg => if seg = [] then none else some (parseParam seg))

/-- Serialize query pairs the way `URLSearchParams.toString()` does
(`k=v` joined by `&`; the `=` is always present). -/
def serializeParams (ps : List (List Char × List Char)) : List Char :=
  joinSep '&' (ps.map (fun kv => kv.1 ++ '=' :: kv.2))

/-- Parse everything after the authority.  `stop` is the delimiter (`/`, `?` or
`#`) that ended the authority, with the remaining input; `none` means the input
ended, in which case the path serializes as `/`. -/
def parseAfterAuth (stop : Option (Char × List Char)) :
    List Char × List (List Char × List Char) × Option (List Char) :=
  match stop with
  | none => (['/'], [], none)
  | some (c, rest) =>
    if c = '/' then
      let pr := splitFirst (fun c => c = '?' || c = '#') rest
      match pr.2 with
      | none => ('/' :: pr.1, [], none)
      | some (c2, rest2) =>
        if c2 = '?' then
          let qr := splitFirst (fun c => c = '#') rest2
          ('/' :: pr.1, parseParams qr.1, Option.map Prod.snd qr.2)
        else ('/' :: pr.1, [], some rest2)
    else if c = '?' then
      let qr := splitFirst (fun c => c = '#') rest
      (['/'], parseParams qr.1, Option.map Prod.snd qr.2)
    else (['/'], [], some rest)

/-- `new URL(s)`: `none` models the constructor throwing a `TypeError`. -/
def parseUrlChars (l : List Char) : Option UrlParts :=
  match splitFirst (fun c => c = ':') l with
  | (_, none) => none
  | (scheme, some (_, rest)) =>
    if scheme = [] then none
    else
      match rest with
      | '/' :: '/' :: rest2 =>
        let ar := splitFirst (fun c => c = '/' || c = '?' || c = '#') rest2
        let hp := splitFirst (fun c => c = ':') ar.1
        let port := match hp.2 with | none => [] | some (_, p) => p
        if hp.1 = [] then none
        else if port.all Char.isDigit then
          let rest3 := parseAfterAuth ar.2
          some ⟨scheme, hp.1, port, rest3.1, rest3.2.1, rest3.2.2⟩
        else none
      | _ => none

/-- `url.toString()` for the shapes produced by this model. -/
def serializeUrl (u : UrlParts) : List Char :=
  u.scheme ++ ':' :: '/' :: '/' :: u.host
    ++ (if u.port = [] then [] else ':' :: u.port)
    ++ u.path
    ++ (if u.params = [] then [] else '?' :: serializeParams u.params)
    ++ (match u.frag with | none => [] | some f => '#' :: f)

/-- Key order used by `URLSearchParams.sort()` (stable, by code units). -/
def paramLe (a b : List Char × List Char) : Prop := leChars a.1 b.1 = true

instance : DecidableRel paramLe := fun a b => by unfold paramLe; infer_instance

/-- `URLSearchParams.sort()`: stable sort of the pairs by key. -/
def sortParams (ps : List (List Char × List Char)) : List (List Char × List Char) :=
  List.insertionSort paramLe ps

/-- The three mutations `normalizeUrl` performs on a parsed URL:
strip one trailing slash (unless the path is just `/`), clear the port,
sort the query parameters. -/
def stripTrailingSlash (p : List Char) : List Char :=
  if p ≠ ['/'] ∧ p.getLast? = some '/' then p.dropLast else p

def canonUrl (u : UrlParts) : UrlParts :=
  { u with path := stripTrailingSlash u.path, port := [], params := sortParams u.params }

/-- `ManifestManager.normalizeUrl` (url-manifest.ts, lines 145-160): parse, strip a
single trailing slash except for the root path, remove the port, sort query
params, re-serialize; if parsing throws, return the input unchanged. -/
def normalizeUrlChars (l : List Char) : List Char :=
  match parseUrlChars l with
  | none => l
  | some u => serializeUrl (canonUrl u)

def normalizeUrl (s : String) : String :=
  String.mk (normalizeUrlChars s.data)

/-! ## Discovery data model -/

inductive UrlSource where
  | sitemap
  | crawl
deriving DecidableEq, Repr

/-- `"sitemap" | "crawl"`, the string stored in JSON and counted by `bySource`. -/
def UrlSource.name : UrlSource → String
  | .sitemap => "sitemap"
  | .crawl => "crawl"

/-- `DiscoveredUrl` (sitemap-crawler.ts).  `discoveredAt` is an ISO timestamp in
the source, compared through `new Date(...)`; it is modelled as epoch
milliseconds, which is order-isomorphic to that comparison. -/
structure DiscoveredUrl where
  url : String
  source : UrlSource
  domain : String
  lastModified : Option String := none
  discoveredAt : Nat
deriving DecidableEq, Repr

/-! ## `ManifestManager.mergeUrls` (url-manifest.ts, lines 106-122) -/

/-- One iteration of the merge loop: keep the existing entry unless the incoming
one is strictly more recent (`new Date(url.discoveredAt) > new Date(existing.discoveredAt)`). -/
def mergeStep (m : List (String × DiscoveredUrl)) (u : DiscoveredUrl) :
    List (String × DiscoveredUrl) :=
  match alookup u.url m with
  | none => aset u.url u m
  | some e => if e.discoveredAt < u.discoveredAt then aset u.url u m else m

/-- `mergeUrls(...urlArrays)`: fold all arrays into one insertion-ordered map and
return its values. -/
def mergeUrls (arrays : List (List DiscoveredUrl)) : List DiscoveredUrl :=
  (arrays.foldl (fun m urls => urls.foldl mergeStep m) []).map Prod.snd

/-! ## `ManifestManager.deduplicateUrls` / `createManifest` (url-manifest.ts) -/

/-- One iteration of the dedup loop: key by the normalized URL, first seen wins,
and the stored entry carries the normalized URL. -/
def dedupStep (seen : List (String × DiscoveredUrl)) (u : DiscoveredUrl) :
    List (String × DiscoveredUrl) :=
  let n := normalizeUrl u.url
  if (alookup n seen).isSome then seen
  else seen ++ [(n, { u with url := n })]

/-- Order used by `.sort((a, b) => a.url.localeCompare(b.url))` in our model of
`localeCompare` (code-unit lexicographic). -/
def urlLe (a b : DiscoveredUrl) : Prop := leChars a.url.data b.url.data = true

instance : DecidableRel urlLe := fun a b => by unfold urlLe; infer_instance

/-- `deduplicateUrls`: dedup by normalized URL (first seen wins), then sort the
values by URL. -/
def deduplicateUrls (urls : List DiscoveredUrl) : List DiscoveredUrl :=
  List.insertionSort urlLe ((urls.foldl dedupStep []).map Prod.snd)

structure UrlManifest where
  version : String
  generatedAt : String
  totalUrls : Nat
  byDomain : List (String × Nat)
  bySource : List (String × Nat)
  urls : List DiscoveredUrl
deriving Repr

/-- `createManifest(urls)` (url-manifest.ts, lines 34-58).  `now` stands for
`new Date().toISOString()`. -/
def createManifest (now : String) (urls : List DiscoveredUrl) : UrlManifest :=
  let uniqueUrls := deduplicateUrls urls
  { version := "1.0.0"
    generatedAt := now
    totalUrls := uniqueUrls.length
    byDomain := uniqueUrls.foldl (fun m u => bump u.domain m) []
    bySource := uniqueUrls.foldl (fun m u => bump u.source.name m) []
    urls := uniqueUrls }

/-! ## Validation pipeline (pricing-page.spec.ts) -/

structure CheckResult where
  name : String
  passed : Bool
  details : Option String := none
deriving DecidableEq, Repr

structure PricingPageResult where
  url : String
  domain : String
  passed : Bool
  loadTimeMs : Nat
  httpStatus : Nat
  checks : List CheckResult
  errors : List String
  warnings : List String
  screenshotPath : Option String
  testedAt : String
deriving DecidableEq, Repr

/-- Outcome of `page.goto`: either it threw (timeout, DNS, …) or it completed
with an optional response (`response?.status() || 0` maps `null` to status 0). -/
inductive NavOutcome where
  | threw (msg : String)
  | ok (resp : Option Nat)
deriving DecidableEq, Repr

/-- Observations of the rendered page consumed by the check functions.  The
Playwright locator/DOM layer is an external collaborator; each field records the
outcome of the corresponding query exactly where the source branches on it. -/
structure PageProbe where
  /-- `#pricing-unavailable` exists (`locator.count() > 0`). -/
  unavailablePanelExists : Bool
  /-- ... and `isVisible()`. -/
  unavailablePanelVisible : Bool
  /-- Its `textContent`, trimmed and truncated as in the source. -/
  unavailablePanelText : String
  /-- First entry of `errorPatterns` found in a visible element, if any. -/
  visibleErrorText : Option String
  /-- `some n`: first date selector with a positive count `n`; `none`: all zero. -/
  dateElements : Option Nat
  /-- First date-like text match in the body, if any. -/
  dateTextMatch : Option String
  /-- First positive price found inside a price-related element, if any. -/
  priceInElements : Option String
  /-- First positive price found in the body text, if any. -/
  priceInText : Option String
  /-- `some n`: first category selector with a positive count `n`. -/
  categoryElements : Option Nat
  /-- First category keyword contained in the lower-cased body text, if any. -/
  categoryKeyword : Option String
  /-- Text of the first element matching a CTA selector, if any. -/
  ctaText : Option String
  /-- The `pageJsErrors` array collected from viking-domain page/console errors. -/
  jsErrors : List String
deriving DecidableEq, Repr

/-- Environment of one `testPricingPage` call. -/
structure NavEnv where
  nav : NavOutcome
  /-- `Date.now() - startTime` right after `goto`. -/
  loadTimeMs : Nat
  /-- `Date.now() - startTime` at the return statement. -/
  totalTimeMs : Nat
  probe : PageProbe
  /-- `new Date().toISOString()` at the return statement. -/
  now : String
deriving Repr

/-- `checkForErrorMessages` (pricing-page.spec.ts, lines 303-358). -/
def checkForErrorMessages (pr : PageProbe) : CheckResult :=
  if pr.unavailablePanelExists && pr.unavailablePanelVisible then
    { name := "No error messages", passed := false
      details := some ("Unavailable panel visible: \"" ++ pr.unavailablePanelText ++ "\"") }
  else
    match pr.visibleErrorText with
    | some msg =>
      { name := "No error messages", passed := false
        details := some ("Found visible: \"" ++ msg ++ "\"") }
    | none =>
      { name := "No error messages", passed := true
        details := some "No visible error messages found" }

/-- `checkDepartureDates` (lines 363-414). -/
def checkDepartureDates (pr : PageProbe) : CheckResult :=
  match pr.dateElements with
  | some n =>
    { name := "Departure dates visible", passed := true
      details := some ("Found " ++ toString n ++ " date elements") }
  | none =>
    match pr.dateTextMatch with
    | some m =>
      { name := "Departure dates visible", passed := true
        details := some ("Found date: \"" ++ m ++ "\"") }
    | none =>
      { name := "Departure dates visible", passed := false
        details := some "No departure dates found" }

/-- `checkPriceValues` (lines 420-482). -/
def checkPriceValues (pr : PageProbe) : CheckResult :=
  match pr.priceInElements with
  | some p =>
    { name := "Valid prices present", passed := true
      details := some ("Found price: " ++ p) }
  | none =>
    match pr.priceInText with
    | some p =>
      { name := "Valid prices present", passed := true
        details := some ("Found price: " ++ p) }
    | none =>
      { name := "Valid prices present", passed := false
        details := some "No valid prices found (all $0 or empty)" }

/-- `checkStateroomCategories` (lines 488-544). -/
def checkStateroomCategories (pr : PageProbe) : CheckResult :=
  match pr.categoryElements with
  | some n =>
    { name := "Stateroom categories displayed", passed := true
      details := some ("Found " ++ toString n ++ " category elements") }
  | none =>
    match pr.categoryKeyword with
    | some k =>
      { name := "Stateroom categories displayed", passed := true
        details := some ("Found keyword: " ++ k) }
    | none =>
      { name := "Stateroom categories displayed", passed := false
        details := some "No stateroom categories found" }

/-- `checkCTAButton` (lines 550-594). -/
def checkCTAButton (pr : PageProbe) : CheckResult :=
  match pr.ctaText with
  | some t =>
    { name := "Booking CTA exists", passed := true
      details := some ("Found CTA: \"" ++ t ++ "\"") }
  | none =>
    { name := "Booking CTA exists", passed := false, details := some "No booking CTA found" }

/-- Check 8, built inline in `testPricingPage` (lines 227-232). -/
def jsErrorsCheck (pr : PageProbe) : CheckResult :=
  { name := "No Viking JS errors"
    passed := decide (pr.jsErrors.length = 0)
    details := some (if 0 < pr.jsErrors.length
      then toString pr.jsErrors.length ++ " errors" else "Clean") }

/-- The four check names whose failure forces `passed = false` (lines 259-266). -/
def criticalNames : List String :=
  ["HTTP Status 200", "No error messages", "Departure dates visible", "Valid prices present"]

/-- The content checks (everything after the status and load-time checks). -/
def contentCheckNames : List String :=
  ["No error messages", "Departure dates visible", "Valid prices present",
   "Stateroom categories displayed", "Booking CTA exists", "No Viking JS errors"]

/-- The screenshot file name slug (lines 244-247):
`url.replace(/https?:\/\//, '').replace(/[^a-zA-Z0-9]/g, '_').slice(0, 100)`.
The first regex has no anchor and no global flag: it removes the first
occurrence of `https://` or `http://` anywhere in the string. -/
def replaceHttpOnce : List Char → List Char
  | [] => []
  | c :: cs =>
    if startsWithSeq ('h' :: 't' :: 't' :: 'p' :: 's' :: ':' :: '/' :: '/' :: []) (c :: cs) then
      (c :: cs).drop 8
    else if startsWithSeq ('h' :: 't' :: 't' :: 'p' :: ':' :: '/' :: '/' :: []) (c :: cs) then
      (c :: cs).drop 7
    else c :: replaceHttpOnce cs

def slugChar (c : Char) : Char :=
  if ('a' ≤ c ∧ c ≤ 'z') ∨ ('A' ≤ c ∧ c ≤ 'Z') ∨ ('0' ≤ c ∧ c ≤ '9') then c else '_'

def screenshotSlug (url : String) : String :=
  String.mk (((replaceHttpOnce url.data).map slugChar).take 100)

/-- `path.join(config.output.screenshotsDir, name + '.png')` for a plain relative
directory (no separator normalization needed in this model). -/
def screenshotPathOf (dir url : String) : String :=
  dir ++ "/" ++ screenshotSlug url ++ ".png"

/-- `testPricingPage` (pricing-page.spec.ts, lines 125-297).  `dir` stands for
`config.output.screenshotsDir` (the `config.ts` module is configuration, injected
here as a parameter).  The `catch` branch models any navigation exception: the
accumulated checks are discarded in favour of a single failing "Page load" check,
`httpStatus` is still 0 (the throw happens before it is assigned), and no
screenshot field is set. -/
def statusOf (resp : Option Nat) : Nat :=
  match resp with
  | none => 0
  | some s => s

def testPricingPage (dir : String) (env : NavEnv) (urlInfo : DiscoveredUrl) :
    PricingPageResult :=
  match env.nav with
  | .threw msg =>
    { url := urlInfo.url, domain := urlInfo.domain, passed := false
      loadTimeMs := env.totalTimeMs, httpStatus := 0
      checks := [{ name := "Page load", passed := false, details := some msg }]
      errors := [msg], warnings := [], screenshotPath := none, testedAt := env.now }
  | .ok resp =>
    let httpStatus : Nat := statusOf resp
    let httpCheck : CheckResult :=
      { name := "HTTP Status 200", passed := decide (httpStatus = 200)
        details := some ("Status: " ++ toString httpStatus) }
    let loadCheck : CheckResult :=
      { name := "Load time < 10s", passed := decide (env.loadTimeMs < 10000)
        details := some (toString env.loadTimeMs ++ "ms") }
    let contentChecks : List CheckResult :=
      if httpStatus = 200 then
        [checkForErrorMessages env.probe, checkDepartureDates env.probe,
         checkPriceValues env.probe, checkStateroomCategories env.probe,
         checkCTAButton env.probe, jsErrorsCheck env.probe]
      else []
    let checks := httpCheck :: loadCheck :: contentChecks
    let errors :=
      (if httpStatus = 200 then [] else ["HTTP " ++ toString httpStatus])
      ++ (if httpStatus = 200 then
            (if (checkForErrorMessages env.probe).passed then []
             else [(checkForErrorMessages env.probe).details.getD
                     "Error message displayed on page"])
            ++ (if (checkDepartureDates env.probe).passed then []
                else ["No departure dates found"])
            ++ (if (checkPriceValues env.probe).passed then []
                else ["No valid prices found"])
          else [])
    let warnings :=
      (if env.loadTimeMs < 10000 then []
       else ["Slow load: " ++ toString env.loadTimeMs ++ "ms"])
      ++ (if httpStatus = 200 then
            (if (checkStateroomCategories env.probe).passed then []
             else ["No stateroom categories found"])
            ++ (if (checkCTAButton env.probe).passed then []
                else ["No booking CTA found"])
            ++ (if env.probe.jsErrors.length = 0 then []
                else ["JS errors: " ++ String.intercalate "; " env.probe.jsErrors])
          else [])
    let hasFailures := checks.any (fun c => !c.passed)
    let screenshotPath :=
      if hasFailures then some (screenshotPathOf dir urlInfo.url) else none
    let criticalChecksFailed :=
      (checks.filter (fun c => decide (c.name ∈ criticalNames))).any (fun c => !c.passed)
    { url := urlInfo.url, domain := urlInfo.domain, passed := !criticalChecksFailed
      loadTimeMs := env.totalTimeMs, httpStatus := httpStatus, checks := checks
      errors := errors, warnings := warnings, screenshotPath := screenshotPath
      testedAt := env.now }

/-! ## Reporter (`Reporter.generateSummary`, reporter.ts lines 44-55) -/

structure TestSummary where
  runAt : String
  totalTested : Nat
  passed : Nat
  failed : Nat
  warnings : Nat
  avgLoadTimeMs : ℚ
  results : List PricingPageResult
deriving Repr

/-- Models `a / b || 0` at this call site: when `b = 0` the numerator (an empty
`reduce`) is also 0, so the JS value is `0/0 = NaN`, and `NaN || 0` is `0`;
when `b ≠ 0` and the quotient is 0, `0 || 0` is again the quotient.  Number
arithmetic is modelled exactly over `ℚ`. -/
def jsDivOr0 (a b : ℚ) : ℚ :=
  if b = 0 then 0 else a / b

def generateSummary (now : String) (results : List PricingPageResult) : TestSummary :=
  { runAt := now
    totalTested := results.length
    passed := (results.filter (fun r => r.passed)).length
    failed := (results.filter (fun r => !r.passed)).length
    warnings := (results.filter (fun r => !r.warnings.isEmpty)).length
    avgLoadTimeMs :=
      jsDivOr0 ((results.map (fun r => (r.loadTimeMs : ℚ))).sum) (results.length : ℚ)
    results := results }

/-! ## Link crawler (`LinkCrawler`, link-crawler.ts)

Instance state (`visitedPages`, `discoveredUrls`) is threaded explicitly; a
`fetched` log records every URL for which a browser page was opened and
`page.goto` attempted.  A returned `true` flag models a JS exception escaping
the function (only `new URL(...)` can throw outside the `try` block); the links
loop sits inside the caller's `try`, so a child's exception stops the remaining
links of that page but is swallowed there. -/

structure CrawlState where
  visitedPages : List String
  discovered : List (String × DiscoveredUrl)
  fetched : List String
deriving DecidableEq, Repr

structure CrawlEnv where
  /-- `config.pricingPagePatterns.some((p) => p.test(url))`; the pattern list is
  configuration, injected as a predicate. -/
  isPricingUrl : String → Bool
  /-- The web: links extracted from a page, or `none` when `goto`/extraction of
  that page fails (the failure is caught and logged). -/
  web : String → Option (List String)
  /-- `new Date().toISOString()` modelled as one clock value per crawl. -/
  now : Nat

/-- `new URL(url).hostname`; `none` models the constructor throwing. -/
def hostOfStr (url : String) : Option String :=
  (parseUrlChars url.data).map (fun u => String.mk u.host)

/-- `isVikingDomain` (link-crawler.ts, lines 163-169). -/
def isVikingDomain (hostname : String) : Bool :=
  containsSeq "viking.com".data hostname.data
  || containsSeq "vikingcruises.com".data hostname.data
  || containsSeq "vikingrivercruises.com".data hostname.data

/-- The `cruisePathPatterns` tests of `shouldFollowLink` (lines 181-191),
case-insensitive substring tests on the URL. -/
def cruisePathTest (url : String) : Bool :=
  let l := url.data.map Char.toLower
  containsSeq "/cruise/".data l || containsSeq "/cruises/".data l
  || containsSeq "/ocean/".data l || containsSeq "/oceans/".data l
  || containsSeq "/river/".data l || containsSeq "/rivers/".data l
  || containsSeq "/expedition/".data l || containsSeq "/expeditions/".data l
  || containsSeq "/destination/".data l || containsSeq "/destinations/".data l
  || containsSeq "/itinerar".data l || containsSeq "/voyage".data l

/-- `shouldFollowLink` (lines 174-192); `none` models `new URL(url)` throwing
(which happens after the depth test). -/
def shouldFollowLink (url : String) (depth maxDepth : Nat) : Option Bool :=
  if maxDepth - 1 ≤ depth then some false
  else
    match hostOfStr url with
    | none => none
    | some h => if !isVikingDomain h then some false else some (cruisePathTest url)

/-- `addDiscoveredUrl` (lines 197-208); the flag models `new URL(url)` throwing. -/
def addDiscoveredUrl (env : CrawlEnv) (url : String) (st : CrawlState) :
    CrawlState × Bool :=
  if (alookup url st.discovered).isSome then (st, false)
  else
    match hostOfStr url with
    | some h =>
      ({ st with discovered :=
          st.discovered ++ [(url, { url := url, source := .crawl, domain := h
                                    lastModified := none, discoveredAt := env.now })] },
       false)
    | none => (st, true)

mutual
/-- `crawlPage` (link-crawler.ts, lines 78-134). -/
def crawlPage (env : CrawlEnv) (maxDepth maxPages : Nat) (url : String) (depth : Nat)
    (st : CrawlState) : CrawlState × Bool :=
  if url ∈ st.visitedPages ∨ maxPages ≤ st.visitedPages.length then (st, false)
  else
    match hostOfStr url with
    | none => (st, true)
    | some host =>
      if !isVikingDomain host then (st, false)
      else
        let st1 : CrawlState := { st with visitedPages := st.visitedPages ++ [url] }
        let pr := if env.isPricingUrl url then addDiscoveredUrl env url st1 else (st1, false)
        if pr.2 then (pr.1, true)
        else if maxDepth ≤ depth then (pr.1, false)
        else
          let st2 : CrawlState := { pr.1 with fetched := pr.1.fetched ++ [url] }
          match env.web url with
          | none => (st2, false)
          | some links => (processLinks env maxDepth maxPages depth links st2, false)
termination_by ((maxDepth - depth, 1, 0) : Nat × Nat × Nat)

/-- The links loop of `crawlPage` (lines 118-127), running inside its `try`. -/
def processLinks (env : CrawlEnv) (maxDepth maxPages depth : Nat) (links : List String)
    (st : CrawlState) : CrawlState :=
  match links with
  | [] => st
  | link :: rest =>
    if maxPages ≤ st.visitedPages.length then st
    else if env.isPricingUrl link then
      let ar := addDiscoveredUrl env link st
      if ar.2 then ar.1 else processLinks env maxDepth maxPages depth rest ar.1
    else
      -- the source switches once on `shouldFollowLink`'s value; the pure call is
      -- repeated here only to expose the guard to the termination checker
      if h : shouldFollowLink link depth maxDepth = some true then
        let cr := crawlPage env maxDepth maxPages link (depth + 1) st
        if cr.2 then cr.1 else processLinks env maxDepth maxPages depth rest cr.1
      else if shouldFollowLink link depth maxDepth = none then st
      else processLinks env maxDepth maxPages depth rest st
termination_by ((maxDepth - depth, 0, links.length + 1) : Nat × Nat × Nat)
decreasing_by
  all_goals simp [Prod.lex_iff]
  have hd : ¬ (maxDepth - 1 ≤ depth) := by
    intro hc
    simp [shouldFollowLink, hc] at h
  omega
end

/-- Modelled from the spec: `config.pricingPagePatterns` — the file `src/config.ts`
is not in the repository snapshot.  Section 4.2 of the spec describes the target
pattern as "a configurable list of regular expressions such as 'ends with
/pricing.html'"; this is that example pattern, used to instantiate `CrawlEnv`. -/
def specPricingPattern (url : String) : Bool :=
  endsWithSeq "/pricing.html".data url.data

/-- State extension: the crawler only ever appends to its three state components. -/
def CrawlExt (a b : CrawlState) : Prop :=
  (∃ t, b.visitedPages = a.visitedPages ++ t)
  ∧ (∃ t, b.discovered = a.discovered ++ t)
  ∧ (∃ t, b.fetched = a.fetched ++ t)

/-- The per-key effect of one merge iteration (proof-support definition): how the
binding for a fixed key evolves when an entry with that key is processed. -/
def keyStep (acc : Option DiscoveredUrl) (u : DiscoveredUrl) : Option DiscoveredUrl :=
  match acc with
  | none => some u
  | some e => if e.discoveredAt < u.discoveredAt then some u else some e

/-! ### Concrete sample data for witnesses and counterexamples -/

/-- A page on which every probe succeeds (all checks pass). -/
def allPassProbe : PageProbe :=
  { unavailablePanelExists := false, unavailablePanelVisible := false
    unavailablePanelText := "", visibleErrorText := none
    dateElements := some 3, dateTextMatch := none
    priceInElements := some "$5,499", priceInText := none
    categoryElements := some 2, categoryKeyword := none
    ctaText := some "Request a Quote", jsErrors := [] }

def sampleUrlInfo : DiscoveredUrl :=
  { url := "https://www.viking.com/x/pricing.html", source := .sitemap
    domain := "www.viking.com", lastModified := none, discoveredAt := 0 }

/-- A navigation that throws (e.g. a timeout). -/
def envThrew : NavEnv :=
  { nav := .threw "Timeout 10000ms exceeded", loadTimeMs := 10000, totalTimeMs := 10050
    probe := allPassProbe, now := "2026-01-01T00:00:00.000Z" }

/-- A navigation that loads with HTTP 200 and an all-passing page. -/
def envOk200 : NavEnv :=
  { nav := .ok (some 200), loadTimeMs := 1200, totalTimeMs := 1500
    probe := allPassProbe, now := "2026-01-01T00:00:00.000Z" }

/-- A navigation that completes with HTTP 404. -/
def envOk404 : NavEnv :=
  { nav := .ok (some 404), loadTimeMs := 800, totalTimeMs := 900
    probe := allPassProbe, now := "2026-01-01T00:00:00.000Z" }

def mergeSampleA : DiscoveredUrl :=
  { url := "https://www.viking.com/a/pricing.html", source := .sitemap
    domain := "www.viking.com", lastModified := none, discoveredAt := 100 }

def mergeSampleB : DiscoveredUrl :=
  { url := "https://www.viking.com/a/pricing.html", source := .crawl
    domain := "www.viking.com", lastModified := none, discoveredAt := 200 }

/-- Same key and the same timestamp as `mergeSampleA`, different payload. -/
def mergeSampleTie : DiscoveredUrl :=
  { url := "https://www.viking.com/a/pricing.html", source := .crawl
    domain := "www.viking.com", lastModified := none, discoveredAt := 100 }

/-- A sample validation result used by the reporter witness. -/
def sampleResult : PricingPageResult :=
  { url := "https://www.viking.com/x/pricing.html", domain := "www.viking.com"
    passed := true, loadTimeMs := 100, httpStatus := 200, checks := []
    errors := [], warnings := [], screenshotPath := none
    testedAt := "2026-01-01T00:00:00.000Z" }

/-- A concrete crawl environment: the spec's example pricing pattern, a web
where every page has no links, and a fixed clock. -/
def crawlEnvSample : CrawlEnv :=
  { isPricingUrl := specPricingPattern, web := fun _ => some [], now := 5 }

def crawlSt0 : CrawlState :=
  { visitedPages := [], discovered := [], fetched := [] }

/-- Structural constraints on parsed URLs (proof-support definition): every
output of `parseUrlChars` satisfies them, and they are exactly what makes
re-parsing a serialized URL recover its components. -/
def GoodCore (u : UrlParts) : Prop :=
  u.scheme ≠ []
  ∧ (∀ c ∈ u.scheme, ¬ c = ':')
  ∧ u.host ≠ []
  ∧ (∀ c ∈ u.host, ¬ c = ':' ∧ ¬ c = '/' ∧ ¬ c = '?' ∧ ¬ c = '#')
  ∧ (∃ t, u.path = '/' :: t ∧ '?' ∉ t ∧ '#' ∉ t)
  ∧ (∀ kv ∈ u.params, '&' ∉ (kv : List Char × List Char).1 ∧ '=' ∉ kv.1
      ∧ '#' ∉ kv.1 ∧ '&' ∉ kv.2 ∧ '#' ∉ kv.2)

/-- A path on which stripping one trailing slash is idempotent: it is exactly
`//`, or it does not end in a double slash at all.  (Since the code removes only
one slash per normalization pass, paths with two or more trailing slashes beyond
the root make `normalizeUrl` non-idempotent.) -/
def SafePath (p : List Char) : Prop :=
  p = ['/', '/'] ∨ ¬ (['/', '/'] <:+ p)

/-! # Theorems

First the generic lemmas about the association-list model and the fold
structure of the merge and dedup loops, then one theorem per claim. -/

theorem alookup_aset_self {α : Type} (k : String) (v : α) (m : List (String × α)) :
    alookup k (aset k v m) = some v := by
  induction m with
  | nil => simp [aset, alookup]
  | cons kv rest ih =>
    by_cases h : kv.1 = k
    · simp [aset, h, alookup]
    · simp [aset, h, alookup, ih]

theorem alookup_aset_ne {α : Type} {k' k : String} (h : k' ≠ k) (v : α)
    (m : List (String × α)) : alookup k (aset k' v m) = alookup k m := by
  induction m with
  | nil => simp [aset, alookup, h]
  | cons kv rest ih =>
    by_cases h2 : kv.1 = k'
    · have h3 : kv.1 ≠ k := by rw [h2]; exact h
      simp [aset, h2, alookup, h, h3]
    · by_cases h3 : kv.1 = k
      · simp [aset, h2, alookup, h3, Ne.symm h]
      · simp [aset, h2, alookup, h3, ih]

theorem alookup_append {α : Type} (k : String) (a b : List (String × α)) :
    alookup k (a ++ b) = (alookup k a).or (alookup k b) := by
  induction a with
  | nil => simp [alookup]
  | cons kv rest ih =>
    by_cases h : kv.1 = k
    · simp [alookup, h]
    · simp [alookup, h, ih]

theorem alookup_mergeStep (m : List (String × DiscoveredUrl)) (u : DiscoveredUrl)
    (k : String) :
    alookup k (mergeStep m u)
      = if u.url = k then keyStep (alookup k m) u else alookup k m := by
  by_cases h : u.url = k
  · subst h
    unfold mergeStep keyStep
    cases he : alookup u.url m with
    | none => simp [he, alookup_aset_self]
    | some e =>
      simp only [he]
      by_cases ht : e.discoveredAt < u.discoveredAt
      · simp [ht, alookup_aset_self]
      · simp [ht, he]
  · unfold mergeStep
    cases he : alookup u.url m with
    | none => simp [h, alookup_aset_ne h]
    | some e =>
      by_cases ht : e.discoveredAt < u.discoveredAt
      · simp [ht, h, alookup_aset_ne h]
      · simp [ht, h]

theorem alookup_foldl_mergeStep (l : List DiscoveredUrl)
    (m : List (String × DiscoveredUrl)) (k : String) :
    alookup k (l.foldl mergeStep m)
      = l.foldl (fun acc u => if u.url = k then keyStep acc u else acc) (alookup k m) := by
  induction l generalizing m with
  | nil => rfl
  | cons u rest ih => simp only [List.foldl_cons, ih, alookup_mergeStep]

theorem foldl_keyStep_filter (l : List DiscoveredUrl) (acc : Option DiscoveredUrl)
    (k : String) :
    l.foldl (fun acc u => if u.url = k then keyStep acc u else acc) acc
      = (l.filter (fun u => u.url == k)).foldl keyStep acc := by
  induction l generalizing acc with
  | nil => rfl
  | cons u rest ih =>
    by_cases h : u.url = k
    · simp [List.foldl_cons, List.filter_cons, h, ih]
    · simp [List.foldl_cons, List.filter_cons, h, ih]

theorem kvInv_aset (m : List (String × DiscoveredUrl)) (k : String) (v : DiscoveredUrl)
    (hm : ∀ kv ∈ m, (kv : String × DiscoveredUrl).2.url = kv.1) (hv : v.url = k) :
    ∀ kv ∈ aset k v m, (kv : String × DiscoveredUrl).2.url = kv.1 := by
  induction m with
  | nil => simpa [aset]
  | cons kv0 rest ih =>
    by_cases h : kv0.1 = k
    · intro kv hkv
      simp only [aset, h, if_pos rfl] at hkv
      rcases List.mem_cons.1 hkv with h1 | h1
      · subst h1; exact hv
      · exact hm kv (List.mem_cons_of_mem _ h1)
    · intro kv hkv
      simp only [aset, h, if_neg h] at hkv
      rcases List.mem_cons.1 hkv with h1 | h1
      · subst h1; exact hm kv0 (List.mem_cons_self _ _)
      · exact ih (fun x hx => hm x (List.mem_cons_of_mem _ hx)) kv h1

theorem kvInv_mergeStep (m : List (String × DiscoveredUrl)) (u : DiscoveredUrl)
    (hm : ∀ kv ∈ m, (kv : String × DiscoveredUrl).2.url = kv.1) :
    ∀ kv ∈ mergeStep m u, (kv : String × DiscoveredUrl).2.url = kv.1 := by
  unfold mergeStep
  cases he : alookup u.url m with
  | none => exact kvInv_aset m u.url u hm rfl
  | some e =>
    by_cases ht : e.discoveredAt < u.discoveredAt
    · simpa [ht] using kvInv_aset m u.url u hm rfl
    · simpa [ht] using hm

theorem kvInv_foldl (l : List DiscoveredUrl) (m : List (String × DiscoveredUrl))
    (hm : ∀ kv ∈ m, (kv : String × DiscoveredUrl).2.url = kv.1) :
    ∀ kv ∈ l.foldl mergeStep m, (kv : String × DiscoveredUrl).2.url = kv.1 := by
  induction l generalizing m with
  | nil => exact hm
  | cons u rest ih => exact ih (mergeStep m u) (kvInv_mergeStep m u hm)

theorem find?_values_eq_alookup (m : List (String × DiscoveredUrl)) (k : String)
    (hm : ∀ kv ∈ m, (kv : String × DiscoveredUrl).2.url = kv.1) :
    (m.map Prod.snd).find? (fun d => d.url == k) = alookup k m := by
  induction m with
  | nil => rfl
  | cons kv rest ih =>
    have hurl : kv.2.url = kv.1 := hm kv (List.mem_cons_self _ _)
    rw [List.map_cons]
    by_cases h : kv.1 = k
    · have hb : (kv.2.url == k) = true := by simp [hurl, h]
      simp [List.find?, hb, alookup, h]
    · have hb : (kv.2.url == k) = false := by simp [hurl, h]
      have hrest : alookup k (kv :: rest) = alookup k rest := by
        simp [alookup, h]
      simp only [List.find?, hb, hrest]
      exact ih (fun x hx => hm x (List.mem_cons_of_mem _ hx))

/-- **C7**: for two collections that each contain exactly one entry for a shared
key, with different `discoveredAt` timestamps, `mergeUrls` keeps the more recent
entry for that key in either argument order — the winner does not depend on the
order of the collections. -/
theorem mergeUrls_comm_on_distinct (A B : List DiscoveredUrl) (k : String)
    (a b : DiscoveredUrl)
    (hA : A.filter (fun d => d.url == k) = [a])
    (hB : B.filter (fun d => d.url == k) = [b])
    (hne : a.discoveredAt ≠ b.discoveredAt) :
    ((mergeUrls [A, B]).find? (fun d => d.url == k)
        = some (if a.discoveredAt < b.discoveredAt then b else a))
    ∧ ((mergeUrls [B, A]).find? (fun d => d.url == k)
        = some (if a.discoveredAt < b.discoveredAt then b else a)) := by
  have hnil : ∀ kv ∈ ([] : List (String × DiscoveredUrl)),
      (kv : String × DiscoveredUrl).2.url = kv.1 := by
    intro kv hkv
    cases hkv
  constructor
  · unfold mergeUrls
    simp only [List.foldl_cons, List.foldl_nil]
    rw [find?_values_eq_alookup _ k
        (kvInv_foldl B _ (kvInv_foldl A [] hnil))]
    rw [alookup_foldl_mergeStep, foldl_keyStep_filter, hB,
        alookup_foldl_mergeStep, foldl_keyStep_filter, hA]
    simp only [alookup, List.foldl_cons, List.foldl_nil, keyStep]
    split <;> rfl
  · unfold mergeUrls
    simp only [List.foldl_cons, List.foldl_nil]
    rw [find?_values_eq_alookup _ k
        (kvInv_foldl A _ (kvInv_foldl B [] hnil))]
    rw [alookup_foldl_mergeStep, foldl_keyStep_filter, hA,
        alookup_foldl_mergeStep, foldl_keyStep_filter, hB]
    simp only [alookup, List.foldl_cons, List.foldl_nil, keyStep]
    rcases Nat.lt_trichotomy a.discoveredAt b.discoveredAt with hlt | heq | hgt
    · simp [hlt, Nat.not_lt_of_lt hlt]
    · exact absurd heq hne
    · simp [hgt, Nat.not_lt_of_lt hgt]

/-- **C7** witness at concrete collections (timestamps 100 < 200). -/
theorem mergeUrls_comm_witness :
    ((mergeUrls [[mergeSampleA], [mergeSampleB]]).find?
        (fun d => d.url == "https://www.viking.com/a/pricing.html")
      = some (if mergeSampleA.discoveredAt < mergeSampleB.discoveredAt
              then mergeSampleB else mergeSampleA))
    ∧ ((mergeUrls [[mergeSampleB], [mergeSampleA]]).find?
        (fun d => d.url == "https://www.viking.com/a/pricing.html")
      = some (if mergeSampleA.discoveredAt < mergeSampleB.discoveredAt
              then mergeSampleB else mergeSampleA)) :=
  mergeUrls_comm_on_distinct [mergeSampleA] [mergeSampleB] _ mergeSampleA mergeSampleB
    (by decide) (by decide) (by decide)

/-- **C10**: when the shared key carries an identical `discoveredAt` in both
collections, the entry from the collection iterated first is kept: the merge
comparison is a strict greater-than, so an equal timestamp never replaces an
existing entry. -/
theorem mergeUrls_tie_first_wins (A B : List DiscoveredUrl) (k : String)
    (a b : DiscoveredUrl)
    (hA : A.filter (fun d => d.url == k) = [a])
    (hB : B.filter (fun d => d.url == k) = [b])
    (heq : a.discoveredAt = b.discoveredAt) :
    (mergeUrls [A, B]).find? (fun d => d.url == k) = some a := by
  have hnil : ∀ kv ∈ ([] : List (String × DiscoveredUrl)),
      (kv : String × DiscoveredUrl).2.url = kv.1 := by
    intro kv hkv
    cases hkv
  unfold mergeUrls
  simp only [List.foldl_cons, List.foldl_nil]
  rw [find?_values_eq_alookup _ k
      (kvInv_foldl B _ (kvInv_foldl A [] hnil))]
  rw [alookup_foldl_mergeStep, foldl_keyStep_filter, hB,
      alookup_foldl_mergeStep, foldl_keyStep_filter, hA]
  simp [alookup, keyStep, heq]

/-- **C10** witness at concrete collections (equal timestamps, different payload:
the first collection's entry survives). -/
theorem mergeUrls_tie_witness :
    (mergeUrls [[mergeSampleA], [mergeSampleTie]]).find?
        (fun d => d.url == "https://www.viking.com/a/pricing.html")
      = some mergeSampleA :=
  mergeUrls_tie_first_wins [mergeSampleA] [mergeSampleTie] _ mergeSampleA mergeSampleTie
    (by decide) (by decide) (by decide)

/-- **C9**: the run summary's average load time is 0 for an empty result set (the
JS `sum / length || 0` coalesces the `0/0 = NaN` case to 0), and for a non-empty
result set it is the sum of the `loadTimeMs` values divided by the number of
results. -/
theorem generateSummary_avgLoadTime (now : String) :
    (generateSummary now []).avgLoadTimeMs = 0
    ∧ ∀ results : List PricingPageResult, results ≠ [] →
        (generateSummary now results).avgLoadTimeMs
          = ((results.map (fun r => (r.loadTimeMs : ℚ))).sum) / (results.length : ℚ) := by
  refine ⟨by simp [generateSummary, jsDivOr0], ?_⟩
  intro rs h
  have h0 : rs.length ≠ 0 := fun hh => h (List.length_eq_zero.mp hh)
  have hlen : (rs.length : ℚ) ≠ 0 := Nat.cast_ne_zero.mpr h0
  simp [generateSummary, jsDivOr0, hlen]

/-- **C9** witness: a singleton result set with load time 100 averages to 100. -/
theorem generateSummary_avg_witness :
    (generateSummary "2026-01-01T00:00:00.000Z" [sampleResult]).avgLoadTimeMs = 100 := by
  have h := (generateSummary_avgLoadTime "2026-01-01T00:00:00.000Z").2 [sampleResult]
    (by decide)
  rw [h]
  norm_num [sampleResult]

/-- **C6**: an input that the URL parser rejects (`new URL` throws) is returned
unchanged by `normalizeUrl`; the embedding is a total function, so no exception
escapes. -/
theorem normalizeUrl_malformed_id (s : String) (h : parseUrlChars s.data = none) :
    normalizeUrl s = s := by
  unfold normalizeUrl normalizeUrlChars
  rw [h]

/-- **C6** witness: a string with no scheme separator round-trips unchanged. -/
theorem normalizeUrl_malformed_witness : normalizeUrl "not a url" = "not a url" :=
  normalizeUrl_malformed_id "not a url" (by decide)

theorem isSome_ite_someNone {α : Type} (c : Bool) (x : α) :
    (if c = true then some x else none).isSome = c := by
  cases c <;> simp

theorem passed_filter_iff (l : List CheckResult) :
    ((l.filter (fun c => decide (c.name ∈ criticalNames))).any (fun c => !c.passed) = false)
    ↔ ∀ c ∈ l, c.name ∈ criticalNames → c.passed = true := by
  rw [← Bool.not_eq_true, List.any_eq_true]
  simp only [List.mem_filter, decide_eq_true_eq, Bool.not_eq_true', not_exists]
  constructor
  · intro hx c hc hn
    by_contra hp
    exact hx c ⟨⟨hc, hn⟩, by simpa using hp⟩
  · rintro hx c ⟨⟨hc, hn⟩, hp⟩
    exact absurd (hx c hc hn) (by simpa using hp)

/-- **C1** (amended): for every result produced by a *completed* navigation
(`page.goto` returned, with or without a 200), `passed` is true iff every check
in the checks list whose name is one of the four critical names has
`passed = true`; warning-only checks never influence it.  (On a navigation
exception the claim as stated fails, see the counterexample: the checks list
contains no critical-named entry, yet `passed` is false.) -/
theorem testPricingPage_passed_iff_critical (dir : String) (env : NavEnv)
    (u : DiscoveredUrl) (resp : Option Nat) (h : env.nav = NavOutcome.ok resp) :
    (testPricingPage dir env u).passed = true
      ↔ ∀ c ∈ (testPricingPage dir env u).checks,
          c.name ∈ criticalNames → c.passed = true := by
  simp only [testPricingPage, h]
  rw [Bool.not_eq_true']
  exact passed_filter_iff _

/-- **C1** witness: a 200 navigation with an all-passing page. -/
theorem testPricingPage_passed_iff_witness :
    (testPricingPage "screenshots" envOk200 sampleUrlInfo).passed = true
      ↔ ∀ c ∈ (testPricingPage "screenshots" envOk200 sampleUrlInfo).checks,
          c.name ∈ criticalNames → c.passed = true :=
  testPricingPage_passed_iff_critical "screenshots" envOk200 sampleUrlInfo (some 200) rfl

/-- **C1** counterexample: on the navigation-exception result the claimed
equivalence is false — its checks list is `[Page load (failed)]`, which contains
no critical-named check (so the right-hand side holds vacuously), while
`passed` is `false`. -/
theorem testPricingPage_exception_passed_cex :
    ¬ (((testPricingPage "screenshots" envThrew sampleUrlInfo).passed = true)
        ↔ ∀ c ∈ (testPricingPage "screenshots" envThrew sampleUrlInfo).checks,
            c.name ∈ criticalNames → c.passed = true) := by decide

/-- **C2** (amended): for a completed navigation, a screenshot path is present
iff some check (critical or warning) failed; on a navigation exception the
result has a failing "Page load" check but *no* screenshot path (the claim as
stated fails there, see the counterexample). -/
theorem testPricingPage_screenshot (dir : String) (env : NavEnv) (u : DiscoveredUrl) :
    (∀ resp, env.nav = NavOutcome.ok resp →
        (testPricingPage dir env u).screenshotPath.isSome
          = (testPricingPage dir env u).checks.any (fun c => !c.passed))
    ∧ (∀ msg, env.nav = NavOutcome.threw msg →
        (testPricingPage dir env u).screenshotPath = none
        ∧ (testPricingPage dir env u).checks
            = [{ name := "Page load", passed := false, details := some msg }]) := by
  constructor
  · intro resp h
    simp only [testPricingPage, h]
    exact isSome_ite_someNone _ _
  · intro msg h
    simp [testPricingPage, h]

/-- **C2** witness: the screenshot-iff-failure equation at a concrete completed
navigation. -/
theorem testPricingPage_screenshot_witness :
    (testPricingPage "screenshots" envOk200 sampleUrlInfo).screenshotPath.isSome
      = (testPricingPage "screenshots" envOk200 sampleUrlInfo).checks.any
          (fun c => !c.passed) :=
  (testPricingPage_screenshot "screenshots" envOk200 sampleUrlInfo).1 (some 200) rfl

/-- **C2** counterexample: the navigation-exception result has a failing check
but no screenshot path. -/
theorem testPricingPage_exception_screenshot_cex :
    (∃ c ∈ (testPricingPage "screenshots" envThrew sampleUrlInfo).checks,
        c.passed = false)
    ∧ (testPricingPage "screenshots" envThrew sampleUrlInfo).screenshotPath = none := by
  decide

/-- **C3**: a navigation that completes with a status other than 200 yields a
well-formed result (the embedding is total, no exception escapes) with
`passed = false`, a failing "HTTP Status 200" entry in its checks list, and no
content check present — only the status and load-time checks exist. -/
theorem testPricingPage_non200 (dir : String) (env : NavEnv) (u : DiscoveredUrl)
    (resp : Option Nat) (h : env.nav = NavOutcome.ok resp)
    (hs : statusOf resp ≠ 200) :
    (testPricingPage dir env u).passed = false
    ∧ ({ name := "HTTP Status 200", passed := false
         details := some ("Status: " ++ toString (statusOf resp)) } : CheckResult)
        ∈ (testPricingPage dir env u).checks
    ∧ ∀ c ∈ (testPricingPage dir env u).checks, c.name ∉ contentCheckNames := by
  simp only [testPricingPage, h]
  refine ⟨?_, ?_, ?_⟩
  · simp [hs, criticalNames]
  · simp [hs]
  · intro c hc
    rw [if_neg hs] at hc
    simp only [List.mem_cons, List.not_mem_nil, or_false] at hc
    rcases hc with h1 | h1 <;> subst h1 <;> simp [contentCheckNames]

/-- **C3** witness: a 404 response. -/
theorem testPricingPage_non200_witness :
    (testPricingPage "screenshots" envOk404 sampleUrlInfo).passed = false
    ∧ ({ name := "HTTP Status 200", passed := false
         details := some ("Status: " ++ toString (statusOf (some 404))) } : CheckResult)
        ∈ (testPricingPage "screenshots" envOk404 sampleUrlInfo).checks
    ∧ ∀ c ∈ (testPricingPage "screenshots" envOk404 sampleUrlInfo).checks,
        c.name ∉ contentCheckNames :=
  testPricingPage_non200 "screenshots" envOk404 sampleUrlInfo (some 404) rfl (by decide)

theorem leChars_total (a b : List Char) : leChars a b = true ∨ leChars b a = true := by
  induction a generalizing b with
  | nil => left; rfl
  | cons x xs ih =>
    cases b with
    | nil => right; rfl
    | cons y ys =>
      by_cases hxy : x = y
      · subst hxy
        simpa [leChars] using ih ys
      · rcases lt_trichotomy x y with h | h | h
        · left; simp [leChars, hxy, h]
        · exact absurd h hxy
        · right; simp [leChars, Ne.symm hxy, h]

theorem leChars_trans {a b c : List Char} (hab : leChars a b = true)
    (hbc : leChars b c = true) : leChars a c = true := by
  induction a generalizing b c with
  | nil => rfl
  | cons x xs ih =>
    cases b with
    | nil => simp [leChars] at hab
    | cons y ys =>
      cases c with
      | nil => simp [leChars] at hbc
      | cons z zs =>
        by_cases hxy : x = y
        · subst hxy
          rw [leChars, if_pos rfl] at hab
          by_cases hyz : x = z
          · subst hyz
            rw [leChars, if_pos rfl] at hbc ⊢
            exact ih hab hbc
          · rw [leChars, if_neg hyz] at hbc ⊢
            exact hbc
        · rw [leChars, if_neg hxy] at hab
          have hlt : x < y := of_decide_eq_true hab
          by_cases hyz : y = z
          · subst hyz
            rw [leChars, if_neg hxy]
            simpa using hlt
          · rw [leChars, if_neg hyz] at hbc
            have hlt2 : y < z := of_decide_eq_true hbc
            have hxz : x < z := lt_trans hlt hlt2
            rw [leChars, if_neg (ne_of_lt hxz)]
            simpa using hxz

theorem alookup_eq_none_iff {α : Type} (k : String) (m : List (String × α)) :
    alookup k m = none ↔ k ∉ m.map Prod.fst := by
  induction m with
  | nil => simp [alookup]
  | cons kv rest ih =>
    by_cases h : kv.1 = k
    · simp [alookup, h]
    · simp [alookup, h, ih, Ne.symm h]

theorem mem_values_of_alookup {α : Type} {k : String} {v : α}
    {m : List (String × α)} (h : alookup k m = some v) : v ∈ m.map Prod.snd := by
  induction m with
  | nil => simp [alookup] at h
  | cons kv rest ih =>
    by_cases hk : kv.1 = k
    · simp only [alookup, if_pos hk] at h
      simp [← Option.some_inj.mp h]
    · simp only [alookup, if_neg hk] at h
      simp [ih h]

theorem key_mem_of_alookup {α : Type} {k : String} {v : α}
    {m : List (String × α)} (h : alookup k m = some v) : k ∈ m.map Prod.fst := by
  by_contra hk
  rw [← alookup_eq_none_iff] at hk
  rw [hk] at h
  cases h

theorem alookup_of_mem_nodup {m : List (String × DiscoveredUrl)}
    (hnd : (m.map Prod.fst).Nodup)
    (hkv : ∀ kv ∈ m, (kv : String × DiscoveredUrl).2.url = kv.1)
    {e : DiscoveredUrl} (he : e ∈ m.map Prod.snd) : alookup e.url m = some e := by
  induction m with
  | nil => simp at he
  | cons kv rest ih =>
    rw [List.map_cons, List.mem_cons] at he
    rcases he with he | he
    · have h1 : kv.1 = e.url := by
        rw [← hkv kv (List.mem_cons_self _ _), he]
      simp [alookup, h1, he]
    · have hnd' : (rest.map Prod.fst).Nodup := (List.nodup_cons.mp hnd).2
      have hkv' : ∀ kv ∈ rest, (kv : String × DiscoveredUrl).2.url = kv.1 :=
        fun x hx => hkv x (List.mem_cons_of_mem _ hx)
      have hrec := ih hnd' hkv' he
      have hne : kv.1 ≠ e.url := by
        intro hcontra
        exact (List.nodup_cons.mp hnd).1 (hcontra ▸ key_mem_of_alookup hrec)
      simp [alookup, hne, hrec]

theorem dedup_fold_kv (us : List DiscoveredUrl) (acc : List (String × DiscoveredUrl))
    (hacc : ∀ kv ∈ acc, (kv : String × DiscoveredUrl).2.url = kv.1) :
    ∀ kv ∈ us.foldl dedupStep acc, (kv : String × DiscoveredUrl).2.url = kv.1 := by
  induction us generalizing acc with
  | nil => exact hacc
  | cons u rest ih =>
    refine ih (dedupStep acc u) ?_
    unfold dedupStep
    by_cases h : (alookup (normalizeUrl u.url) acc).isSome
    · simpa [h] using hacc
    · simp only [h, Bool.false_eq_true, if_false]
      intro kv hkv
      rcases List.mem_append.mp hkv with h1 | h1
      · exact hacc kv h1
      · rcases List.mem_singleton.mp h1 with rfl
        rfl

theorem dedup_fold_nodup (us : List DiscoveredUrl)
    (acc : List (String × DiscoveredUrl)) (hacc : (acc.map Prod.fst).Nodup) :
    (((us.foldl dedupStep acc).map Prod.fst)).Nodup := by
  induction us generalizing acc with
  | nil => exact hacc
  | cons u rest ih =>
    refine ih (dedupStep acc u) ?_
    unfold dedupStep
    by_cases h : (alookup (normalizeUrl u.url) acc).isSome
    · simpa [h] using hacc
    · have hnot : normalizeUrl u.url ∉ acc.map Prod.fst := by
        rw [← alookup_eq_none_iff]
        exact Option.not_isSome_iff_eq_none.mp h
      simp [h, List.nodup_append, hacc, hnot]

theorem dedup_fold_char (us : List DiscoveredUrl) :
    ∀ (processed : List DiscoveredUrl) (acc : List (String × DiscoveredUrl)),
    (∀ k, alookup k acc
      = (processed.find? (fun v => normalizeUrl v.url == k)).map
          (fun w => { w with url := k })) →
    ∀ k, alookup k (us.foldl dedupStep acc)
      = ((processed ++ us).find? (fun v => normalizeUrl v.url == k)).map
          (fun w => { w with url := k }) := by
  induction us with
  | nil =>
    intro processed acc hacc k
    simpa using hacc k
  | cons u rest ih =>
    intro processed acc hacc k
    have hstep : ∀ k, alookup k (dedupStep acc u)
        = ((processed ++ [u]).find? (fun v => normalizeUrl v.url == k)).map
            (fun w => { w with url := k }) := by
      intro k
      rw [List.find?_append]
      unfold dedupStep
      by_cases h : (alookup (normalizeUrl u.url) acc).isSome
      · simp only [h, if_true]
        cases hf : processed.find? (fun v => normalizeUrl v.url == k) with
        | some w => simp [hacc k, hf]
        | none =>
          rw [hacc k, hf]
          by_cases hk : normalizeUrl u.url = k
          · exfalso
            rw [hacc (normalizeUrl u.url)] at h
            rw [hk, hf] at h
            simp at h
          · have hk' : (normalizeUrl u.url == k) = false := by simp [hk]
            have h1 : (List.find? (fun v => normalizeUrl v.url == k) [u]) = none := by
              simp [List.find?, hk']
            simp [h1]
      · simp only [h, Bool.false_eq_true, if_false]
        rw [alookup_append]
        cases hf : processed.find? (fun v => normalizeUrl v.url == k) with
        | some w => simp [hacc k, hf]
        | none =>
          rw [hacc k, hf]
          simp only [Option.map_none, Option.none_or]
          by_cases hk : normalizeUrl u.url = k
          · have hk' : (normalizeUrl u.url == k) = true := by simp [hk]
            have h1 : (List.find? (fun v => normalizeUrl v.url == k) [u]) = some u := by
              simp [List.find?, hk']
            simp [h1, alookup, hk]
          · have hk' : (normalizeUrl u.url == k) = false := by simp [hk]
            have h1 : (List.find? (fun v => normalizeUrl v.url == k) [u]) = none := by
              simp [List.find?, hk']
            simp [h1, alookup, hk]
    have := ih (processed ++ [u]) (dedupStep acc u) hstep k
    simpa using this

theorem values_pairwise_ne (m : List (String × DiscoveredUrl))
    (hnd : (m.map Prod.fst).Nodup)
    (hkv : ∀ kv ∈ m, (kv : String × DiscoveredUrl).2.url = kv.1) :
    (m.map Prod.snd).Pairwise (fun a b => a.url ≠ b.url) := by
  rw [List.pairwise_map]
  have h1 : m.Pairwise (fun x y => x.1 ≠ y.1) := by
    rw [← List.pairwise_map (f := Prod.fst)]
    exact hnd
  refine h1.imp_of_mem ?_
  intro x y hx hy hne
  rw [hkv x hx, hkv y hy]
  exact hne

/-- **C8**: the urls list of `createManifest`'s output (i) contains an entry for
each input URL's normalized form, (ii) has pairwise-distinct URLs (each
normalized URL exactly once), (iii) every output entry is the first input entry
with that normalized URL (first-seen wins), with its `url` field replaced by the
normalized form, and (iv) is sorted by URL in the (modelled) `localeCompare`
order, i.e. lexicographically. -/
theorem createManifest_dedup_sorted (now : String) (us : List DiscoveredUrl) :
    (∀ u ∈ us, ∃ e ∈ (createManifest now us).urls, e.url = normalizeUrl u.url)
    ∧ (createManifest now us).urls.Pairwise (fun a b => a.url ≠ b.url)
    ∧ (∀ e ∈ (createManifest now us).urls,
        ∃ w, us.find? (fun v => normalizeUrl v.url == e.url) = some w
          ∧ e = { w with url := normalizeUrl w.url })
    ∧ (createManifest now us).urls.Sorted urlLe := by
  have hurls : (createManifest now us).urls
      = List.insertionSort urlLe ((us.foldl dedupStep []).map Prod.snd) := rfl
  have hchar : ∀ k, alookup k (us.foldl dedupStep [])
      = (us.find? (fun v => normalizeUrl v.url == k)).map (fun w => { w with url := k }) := by
    have h0 : ∀ k, alookup k ([] : List (String × DiscoveredUrl))
        = (([] : List DiscoveredUrl).find? (fun v => normalizeUrl v.url == k)).map
            (fun w => { w with url := k }) := fun k => rfl
    have := dedup_fold_char us [] [] h0
    simpa using this
  have hkv : ∀ kv ∈ us.foldl dedupStep [], (kv : String × DiscoveredUrl).2.url = kv.1 :=
    dedup_fold_kv us [] (by intro kv h; cases h)
  have hnd : ((us.foldl dedupStep []).map Prod.fst).Nodup :=
    dedup_fold_nodup us [] (by simp)
  have hperm : (List.insertionSort urlLe ((us.foldl dedupStep []).map Prod.snd)).Perm
      ((us.foldl dedupStep []).map Prod.snd) := List.perm_insertionSort _ _
  refine ⟨?_, ?_, ?_, ?_⟩
  · intro u hu
    have hfind : (us.find? (fun v => normalizeUrl v.url == normalizeUrl u.url)).isSome := by
      rw [List.find?_isSome]
      exact ⟨u, hu, by simp⟩
    obtain ⟨w, hw⟩ := Option.isSome_iff_exists.mp hfind
    have hl : alookup (normalizeUrl u.url) (us.foldl dedupStep [])
        = some { w with url := normalizeUrl u.url } := by
      rw [hchar, hw]
      rfl
    have hv := mem_values_of_alookup hl
    refine ⟨{ w with url := normalizeUrl u.url }, ?_, rfl⟩
    rw [hurls]
    exact hperm.mem_iff.mpr hv
  · rw [hurls]
    exact (hperm.pairwise_iff (fun h => h.symm)).mpr
      (values_pairwise_ne _ hnd hkv)
  · intro e he
    rw [hurls] at he
    have hev : e ∈ (us.foldl dedupStep []).map Prod.snd := hperm.subset he
    have hlook : alookup e.url (us.foldl dedupStep []) = some e :=
      alookup_of_mem_nodup hnd hkv hev
    rw [hchar e.url] at hlook
    cases hf : us.find? (fun v => normalizeUrl v.url == e.url) with
    | none => rw [hf] at hlook; cases hlook
    | some w =>
      rw [hf] at hlook
      have hww : normalizeUrl w.url = e.url := by
        have := List.find?_some hf
        simpa using this
      refine ⟨w, ?_, ?_⟩
      · rfl
      · rw [hww]
        exact (Option.some_inj.mp hlook).symm
  · rw [hurls]
    haveI : IsTotal DiscoveredUrl urlLe := ⟨fun a b => leChars_total _ _⟩
    haveI : IsTrans DiscoveredUrl urlLe := ⟨fun a b c => leChars_trans⟩
    exact List.sorted_insertionSort urlLe _

/-- **C8** witness: the single-entry input appears in the manifest under its
normalized URL. -/
theorem createManifest_dedup_witness :
    ∃ e ∈ (createManifest "2026-01-01" [mergeSampleA]).urls,
      e.url = normalizeUrl mergeSampleA.url :=
  (createManifest_dedup_sorted "2026-01-01" [mergeSampleA]).1 mergeSampleA (by decide)

/-! ### The URL parser/serializer round trip (for C5) -/

theorem splitFirst_of_forall {p : Char → Bool} {l : List Char}
    (h : ∀ c ∈ l, p c = false) : splitFirst p l = (l, none) := by
  induction l with
  | nil => rfl
  | cons c cs ih =>
    have hc := h c (List.mem_cons_self _ _)
    simp [splitFirst, hc, ih (fun x hx => h x (List.mem_cons_of_mem _ hx))]

theorem splitFirst_append {p : Char → Bool} {a : List Char} {c : Char} {b : List Char}
    (h : ∀ x ∈ a, p x = false) (hc : p c = true) :
    splitFirst p (a ++ c :: b) = (a, some (c, b)) := by
  induction a with
  | nil => simp [splitFirst, hc]
  | cons x xs ih =>
    have hx := h x (List.mem_cons_self _ _)
    simp [splitFirst, hx, ih (fun y hy => h y (List.mem_cons_of_mem _ hy))]

theorem splitFirst_none_inv {p : Char → Bool} {l : List Char}
    (h : (splitFirst p l).2 = none) :
    (splitFirst p l).1 = l ∧ ∀ c ∈ l, p c = false := by
  induction l with
  | nil => exact ⟨rfl, by intro c hc; cases hc⟩
  | cons c cs ih =>
    by_cases hc : p c = true
    · simp [splitFirst, hc] at h
    · have hcf : p c = false := by simpa using hc
      simp only [splitFirst, hcf, Bool.false_eq_true, if_false] at h ⊢
      obtain ⟨h1, h2⟩ := ih h
      refine ⟨by rw [h1], ?_⟩
      intro x hx
      rcases List.mem_cons.mp hx with rfl | hx
      · exact hcf
      · exact h2 x hx

theorem splitFirst_some_inv {p : Char → Bool} {l : List Char} {c : Char}
    {b : List Char} (h : (splitFirst p l).2 = some (c, b)) :
    l = (splitFirst p l).1 ++ c :: b ∧ p c = true
      ∧ ∀ x ∈ (splitFirst p l).1, p x = false := by
  induction l with
  | nil => simp [splitFirst] at h
  | cons x xs ih =>
    by_cases hx : p x = true
    · simp only [splitFirst, hx, if_true] at h ⊢
      obtain ⟨rfl, rfl⟩ : c = x ∧ b = xs := by
        constructor <;> [exact (Prod.mk.injEq .. ▸ Option.some_inj.mp h).1.symm;
          exact (Prod.mk.injEq .. ▸ Option.some_inj.mp h).2.symm]
      exact ⟨rfl, hx, by intro y hy; cases hy⟩
    · have hxf : p x = false := by simpa using hx
      simp only [splitFirst, hxf, Bool.false_eq_true, if_false] at h ⊢
      obtain ⟨h1, h2, h3⟩ := ih h
      refine ⟨by rw [List.cons_append, ← h1], h2, ?_⟩
      intro y hy
      rcases List.mem_cons.mp hy with rfl | hy
      · exact hxf
      · exact h3 y hy

theorem splitSepAux_no_sep {ch : Char} {l : List Char} (acc : List Char)
    (h : ch ∉ l) : splitSepAux ch l acc = [acc.reverse ++ l] := by
  induction l generalizing acc with
  | nil => simp [splitSepAux]
  | cons c cs ih =>
    have hc : ¬ c = ch := fun hh => h (hh ▸ List.mem_cons_self _ _)
    have hcs : ch ∉ cs := fun hh => h (List.mem_cons_of_mem _ hh)
    simp [splitSepAux, hc, ih _ hcs]

theorem splitSepAux_append {ch : Char} {a : List Char} (b acc : List Char)
    (h : ch ∉ a) :
    splitSepAux ch (a ++ ch :: b) acc = (acc.reverse ++ a) :: splitSepAux ch b [] := by
  induction a generalizing acc with
  | nil => simp [splitSepAux]
  | cons x xs ih =>
    have hx : ¬ x = ch := fun hh => h (hh ▸ List.mem_cons_self _ _)
    have hxs : ch ∉ xs := fun hh => h (List.mem_cons_of_mem _ hh)
    simp [splitSepAux, hx, ih _ hxs]

theorem splitSepAux_mem {ch : Char} {l : List Char} :
    ∀ {acc : List Char}, ch ∉ acc →
    ∀ seg ∈ splitSepAux ch l acc, ch ∉ seg ∧ ∀ c ∈ seg, c ∈ acc ∨ c ∈ l := by
  induction l with
  | nil =>
    intro acc hacc seg hseg
    simp only [splitSepAux, List.mem_singleton] at hseg
    subst hseg
    constructor
    · simpa using hacc
    · intro c hc
      left
      simpa using hc
  | cons x xs ih =>
    intro acc hacc seg hseg
    by_cases hx : x = ch
    · simp only [splitSepAux, hx, if_pos rfl] at hseg
      rcases List.mem_cons.mp hseg with rfl | hseg
      · refine ⟨by simpa using hacc, ?_⟩
        intro c hc
        left
        simpa using hc
      · obtain ⟨h1, h2⟩ := ih (by simp) seg hseg
        refine ⟨h1, ?_⟩
        intro c hc
        rcases h2 c hc with h3 | h3
        · simp at h3
        · right
          exact List.mem_cons_of_mem _ h3
    · simp only [splitSepAux, hx, if_neg hx] at hseg
      have hacc' : ch ∉ x :: acc := by
        intro hm
        rcases List.mem_cons.mp hm with rfl | hm
        · exact hx rfl
        · exact hacc hm
      obtain ⟨h1, h2⟩ := ih hacc' seg hseg
      refine ⟨h1, ?_⟩
      intro c hc
      rcases h2 c hc with h3 | h3
      · rcases List.mem_cons.mp h3 with rfl | h3
        · right
          exact List.mem_cons_self _ _
        · left
          exact h3
      · right
        exact List.mem_cons_of_mem _ h3

theorem parseParams_serializeParams (ps : List (List Char × List Char))
    (hne : ps ≠ [])
    (hok : ∀ kv ∈ ps, '&' ∉ (kv : List Char × List Char).1 ∧ '=' ∉ kv.1 ∧ '&' ∉ kv.2) :
    parseParams (serializeParams ps) = ps := by
  induction ps with
  | nil => exact absurd rfl hne
  | cons kv rest ih =>
    obtain ⟨hk1, hk2, hk3⟩ := hok kv (List.mem_cons_self _ _)
    have hseg : ('&' : Char) ∉ kv.1 ++ '=' :: kv.2 := by
      intro hm
      rcases List.mem_append.mp hm with hm | hm
      · exact hk1 hm
      · rcases List.mem_cons.mp hm with hm | hm
        · cases hm
        · exact hk3 hm
    have hsegne : kv.1 ++ '=' :: kv.2 ≠ [] := by
      intro hh
      cases List.append_eq_nil.mp hh |>.2
    have hparse : parseParam (kv.1 ++ '=' :: kv.2) = kv := by
      unfold parseParam
      have hkeq : ∀ x ∈ kv.1, (decide (x = '=')) = false := by
        intro x hx
        simp only [decide_eq_false_iff_not]
        intro hh
        exact hk2 (hh ▸ hx)
      rw [splitFirst_append hkeq (by simp)]
    cases rest with
    | nil =>
      unfold parseParams serializeParams splitSep
      simp only [List.map_cons, List.map_nil, joinSep]
      rw [splitSepAux_no_sep [] hseg]
      simp [hsegne, hparse]
    | cons kv2 rest2 =>
      have hih := ih (by simp) (fun x hx => hok x (List.mem_cons_of_mem _ hx))
      have hser : serializeParams (kv :: kv2 :: rest2)
          = (kv.1 ++ '=' :: kv.2) ++ '&' :: serializeParams (kv2 :: rest2) := by
        unfold serializeParams
        simp only [List.map_cons]
        rfl
      have hsplit : splitSep '&' (serializeParams (kv :: kv2 :: rest2))
          = (kv.1 ++ '=' :: kv.2) :: splitSep '&' (serializeParams (kv2 :: rest2)) := by
        rw [hser]
        unfold splitSep
        simpa using splitSepAux_append (serializeParams (kv2 :: rest2)) [] hseg
      unfold parseParams
      rw [hsplit]
      have hhead : (if (kv.1 ++ '=' :: kv.2) = [] then none
          else some (parseParam (kv.1 ++ '=' :: kv.2))) = some kv := by
        simp [hsegne, hparse]
      simp only [List.filterMap_cons, hhead]
      exact congrArg (List.cons kv) hih

theorem hash_not_mem_serializeParams (ps : List (List Char × List Char))
    (hok : ∀ kv ∈ ps, '#' ∉ (kv : List Char × List Char).1 ∧ '#' ∉ kv.2) :
    ('#' : Char) ∉ serializeParams ps := by
  induction ps with
  | nil => simp [serializeParams, joinSep]
  | cons kv rest ih =>
    obtain ⟨h1, h2⟩ := hok kv (List.mem_cons_self _ _)
    cases rest with
    | nil =>
      unfold serializeParams
      simp only [List.map_cons, List.map_nil, joinSep]
      intro hm
      rcases List.mem_append.mp hm with hm | hm
      · exact h1 hm
      · rcases List.mem_cons.mp hm with hm | hm
        · cases hm
        · exact h2 hm
    | cons kv2 rest2 =>
      have hih := ih (fun x hx => hok x (List.mem_cons_of_mem _ hx))
      have hser : serializeParams (kv :: kv2 :: rest2)
          = (kv.1 ++ '=' :: kv.2) ++ '&' :: serializeParams (kv2 :: rest2) := by
        unfold serializeParams
        simp only [List.map_cons]
        rfl
      rw [hser]
      intro hm
      rcases List.mem_append.mp hm with hm | hm
      · rcases List.mem_append.mp hm with hm | hm
        · exact h1 hm
        · rcases List.mem_cons.mp hm with hm | hm
          · cases hm
          · exact h2 hm
      · rcases List.mem_cons.mp hm with hm | hm
        · cases hm
        · exact hih hm

theorem parseAfterAuth_round (t : List Char) (params : List (List Char × List Char))
    (frag : Option (List Char)) (ht1 : '?' ∉ t) (ht2 : '#' ∉ t)
    (hps : ∀ kv ∈ params, '&' ∉ (kv : List Char × List Char).1 ∧ '=' ∉ kv.1
      ∧ '#' ∉ kv.1 ∧ '&' ∉ kv.2 ∧ '#' ∉ kv.2) :
    parseAfterAuth (some ('/',
        t ++ ((if params = [] then [] else '?' :: serializeParams params)
          ++ (match frag with | none => [] | some f => '#' :: f))))
      = ('/' :: t, params, frag) := by
  have hT : ∀ x ∈ t, (fun c => (decide (c = '?') || decide (c = '#'))) x = false := by
    intro x hx
    have hx1 : ¬ x = '?' := fun hh => ht1 (hh ▸ hx)
    have hx2 : ¬ x = '#' := fun hh => ht2 (hh ▸ hx)
    simp [hx1, hx2]
  cases params with
  | nil =>
    cases frag with
    | none =>
      simp only [if_pos rfl, List.nil_append, List.append_nil]
      simp [parseAfterAuth, splitFirst_of_forall hT, parseParams, splitSep, splitSepAux]
    | some f =>
      simp only [if_pos rfl, List.nil_append]
      have h4 : splitFirst (fun c => (decide (c = '?') || decide (c = '#')))
          (t ++ '#' :: f) = (t, some ('#', f)) := splitFirst_append hT (by simp)
      simp [parseAfterAuth, h4]
  | cons kv ps' =>
    have hok1 : ∀ x ∈ kv :: ps', '&' ∉ (x : List Char × List Char).1 ∧ '=' ∉ x.1
        ∧ '&' ∉ x.2 := by
      intro x hx
      obtain ⟨a, b, -, c, -⟩ := hps x hx
      exact ⟨a, b, c⟩
    have hok2 : ∀ x ∈ kv :: ps', '#' ∉ (x : List Char × List Char).1 ∧ '#' ∉ x.2 := by
      intro x hx
      obtain ⟨-, -, a, -, b⟩ := hps x hx
      exact ⟨a, b⟩
    have hser := parseParams_serializeParams (kv :: ps') (by simp) hok1
    have hserF : ∀ x ∈ serializeParams (kv :: ps'),
        (fun c => decide (c = '#')) x = false := by
      intro x hx
      have := hash_not_mem_serializeParams (kv :: ps') hok2
      simp only [decide_eq_false_iff_not]
      intro hh
      exact this (hh ▸ hx)
    cases frag with
    | none =>
      simp only [List.append_nil]
      have h4 : splitFirst (fun c => (decide (c = '?') || decide (c = '#')))
          (t ++ '?' :: serializeParams (kv :: ps'))
          = (t, some ('?', serializeParams (kv :: ps'))) :=
        splitFirst_append hT (by simp)
      have h5 : splitFirst (fun c => decide (c = '#')) (serializeParams (kv :: ps'))
          = (serializeParams (kv :: ps'), none) := splitFirst_of_forall hserF
      simp [parseAfterAuth, h4, h5, hser]
    | some f =>
      have h4 : splitFirst (fun c => (decide (c = '?') || decide (c = '#')))
          (t ++ '?' :: (serializeParams (kv :: ps') ++ '#' :: f))
          = (t, some ('?', serializeParams (kv :: ps') ++ '#' :: f)) :=
        splitFirst_append hT (by simp)
      have h5 : splitFirst (fun c => decide (c = '#'))
          (serializeParams (kv :: ps') ++ '#' :: f)
          = (serializeParams (kv :: ps'), some ('#', f)) :=
        splitFirst_append hserF (by simp)
      simp [parseAfterAuth, h4, h5, hser]

theorem parse_serializeUrl {u : UrlParts} (hg : GoodCore u) (hport : u.port = []) :
    parseUrlChars (serializeUrl u) = some u := by
  obtain ⟨hs1, hs2, hh1, hh2, ⟨t, hpath, ht1, ht2⟩, hps⟩ := hg
  have hS : ∀ x ∈ u.scheme, (fun c => decide (c = ':')) x = false := by
    intro x hx
    simpa using hs2 x hx
  have hH3 : ∀ x ∈ u.host,
      (fun c => (decide (c = '/') || decide (c = '?') || decide (c = '#'))) x = false := by
    intro x hx
    obtain ⟨-, h2, h3, h4⟩ := hh2 x hx
    simp [h2, h3, h4]
  have hHc : ∀ x ∈ u.host, (fun c => decide (c = ':')) x = false := by
    intro x hx
    simpa using (hh2 x hx).1
  have hflat : serializeUrl u
      = u.scheme ++ ':' :: '/' :: '/' :: (u.host ++ '/' ::
          (t ++ ((if u.params = [] then [] else '?' :: serializeParams u.params)
            ++ (match u.frag with | none => [] | some f => '#' :: f)))) := by
    unfold serializeUrl
    rw [hport, hpath]
    simp [List.append_assoc]
  have h1 : splitFirst (fun c => decide (c = ':')) (serializeUrl u)
      = (u.scheme, some (':', '/' :: '/' :: (u.host ++ '/' ::
          (t ++ ((if u.params = [] then [] else '?' :: serializeParams u.params)
            ++ (match u.frag with | none => [] | some f => '#' :: f)))))) := by
    rw [hflat]
    exact splitFirst_append hS (by simp)
  have h2 : splitFirst (fun c => (decide (c = '/') || decide (c = '?') || decide (c = '#')))
      (u.host ++ '/' ::
          (t ++ ((if u.params = [] then [] else '?' :: serializeParams u.params)
            ++ (match u.frag with | none => [] | some f => '#' :: f))))
      = (u.host, some ('/',
          t ++ ((if u.params = [] then [] else '?' :: serializeParams u.params)
            ++ (match u.frag with | none => [] | some f => '#' :: f)))) :=
    splitFirst_append hH3 (by simp)
  have h3 : splitFirst (fun c => decide (c = ':')) u.host = (u.host, none) :=
    splitFirst_of_forall hHc
  have hround := parseAfterAuth_round t u.params u.frag ht1 ht2 hps
  unfold parseUrlChars
  rw [h1]
  simp only [if_neg hs1, h2, h3, if_neg hh1, List.all_nil, if_true, hround]
  rw [← hpath, ← hport]

theorem parseParams_good {q : List Char} (hq : ('#' : Char) ∉ q) :
    ∀ kv ∈ parseParams q, '&' ∉ (kv : List Char × List Char).1 ∧ '=' ∉ kv.1
      ∧ '#' ∉ kv.1 ∧ '&' ∉ kv.2 ∧ '#' ∉ kv.2 := by
  intro kv hkv
  unfold parseParams at hkv
  rw [List.mem_filterMap] at hkv
  obtain ⟨seg, hseg, hf⟩ := hkv
  by_cases hempty : seg = []
  · simp [hempty] at hf
  · rw [if_neg hempty] at hf
    have hkv' : kv = parseParam seg := (Option.some_inj.mp hf).symm
    obtain ⟨hamp, hsub0⟩ := @splitSepAux_mem _ q [] (by simp) seg hseg
    have hsub : ∀ c ∈ seg, c ∈ q := by
      intro c hc
      rcases hsub0 c hc with h | h
      · cases h
      · exact h
    unfold parseParam at hkv'
    rcases hsp : splitFirst (fun c => decide (c = '=')) seg with ⟨a, o⟩
    rw [hsp] at hkv'
    cases o with
    | none =>
      have hinv := splitFirst_none_inv (p := fun c => decide (c = '='))
        (l := seg) (by rw [hsp])
      rw [hsp] at hinv
      obtain ⟨ha, hall⟩ := hinv
      simp only at hkv' ha
      subst hkv'
      subst ha
      refine ⟨hamp, ?_, fun hm => hq (hsub _ hm), by simp, by simp⟩
      intro hm
      simpa using hall _ hm
    | some cv =>
      obtain ⟨c1, v⟩ := cv
      have hinv := splitFirst_some_inv (p := fun c => decide (c = '='))
        (l := seg) (by rw [hsp])
      rw [hsp] at hinv
      obtain ⟨hdec, hc1, hall⟩ := hinv
      simp only at hkv' hdec hall
      subst hkv'
      have hasub : ∀ x ∈ a, x ∈ seg := by
        intro x hx
        rw [hdec]
        exact List.mem_append.mpr (Or.inl hx)
      have hvsub : ∀ x ∈ v, x ∈ seg := by
        intro x hx
        rw [hdec]
        exact List.mem_append.mpr (Or.inr (List.mem_cons_of_mem _ hx))
      refine ⟨fun hm => hamp (hasub _ hm), ?_, fun hm => hq (hsub _ (hasub _ hm)),
        fun hm => hamp (hvsub _ hm), fun hm => hq (hsub _ (hvsub _ hm))⟩
      intro hm
      simpa using hall _ hm

theorem parseAfterAuth_good (stop : Option (Char × List Char)) :
    (∃ t, (parseAfterAuth stop).1 = '/' :: t ∧ '?' ∉ t ∧ '#' ∉ t)
    ∧ ∀ kv ∈ (parseAfterAuth stop).2.1, '&' ∉ (kv : List Char × List Char).1
        ∧ '=' ∉ kv.1 ∧ '#' ∉ kv.1 ∧ '&' ∉ kv.2 ∧ '#' ∉ kv.2 := by
  rcases stop with _ | ⟨c, rest⟩
  · exact ⟨⟨[], rfl, by simp, by simp⟩, by intro kv h; cases h⟩
  by_cases hc : c = '/'
  · subst hc
    rcases hpr : splitFirst (fun c => (decide (c = '?') || decide (c = '#'))) rest
      with ⟨a, o⟩
    have hpr1 : (splitFirst (fun c => (decide (c = '?') || decide (c = '#'))) rest).1 = a := by
      rw [hpr]
    have hpr2 : (splitFirst (fun c => (decide (c = '?') || decide (c = '#'))) rest).2 = o := by
      rw [hpr]
    have haP : ∀ x ∈ a, (decide (x = '?') || decide (x = '#')) = false := by
      cases o with
      | none =>
        have hinv := splitFirst_none_inv
          (p := fun c => (decide (c = '?') || decide (c = '#'))) (l := rest) hpr2
        rw [hpr1] at hinv
        intro x hx
        exact hinv.2 x (hinv.1 ▸ hx)
      | some cv =>
        obtain ⟨c2, rest2⟩ := cv
        have hinv := splitFirst_some_inv
          (p := fun c => (decide (c = '?') || decide (c = '#'))) (l := rest) hpr2
        rw [hpr1] at hinv
        exact hinv.2.2
    have hpath : (∃ t, ('/' :: a : List Char) = '/' :: t ∧ '?' ∉ t ∧ '#' ∉ t) := by
      refine ⟨a, rfl, ?_, ?_⟩
      · intro hm
        have := haP _ hm
        simp at this
      · intro hm
        have := haP _ hm
        simp at this
    cases o with
    | none =>
      have hres : parseAfterAuth (some ('/', rest)) = ('/' :: a, [], none) := by
        unfold parseAfterAuth
        simp [hpr1, hpr2]
      rw [hres]
      exact ⟨hpath, by intro kv h; cases h⟩
    | some cv =>
      obtain ⟨c2, rest2⟩ := cv
      by_cases hc2 : c2 = '?'
      · subst hc2
        rcases hqr : splitFirst (fun c => decide (c = '#')) rest2 with ⟨q, oq⟩
        have hqr1 : (splitFirst (fun c => decide (c = '#')) rest2).1 = q := by rw [hqr]
        have hqr2 : (splitFirst (fun c => decide (c = '#')) rest2).2 = oq := by rw [hqr]
        have hnq : ('#' : Char) ∉ q := by
          cases oq with
          | none =>
            have hinv2 := splitFirst_none_inv (p := fun c => decide (c = '#'))
              (l := rest2) hqr2
            rw [hqr1] at hinv2
            intro hm
            have := hinv2.2 _ (hinv2.1 ▸ hm)
            simp at this
          | some x =>
            obtain ⟨c3, r3⟩ := x
            have hinv2 := splitFirst_some_inv (p := fun c => decide (c = '#'))
              (l := rest2) hqr2
            rw [hqr1] at hinv2
            intro hm
            simpa using hinv2.2.2 _ hm
        have hres : parseAfterAuth (some ('/', rest))
            = ('/' :: a, parseParams q, Option.map Prod.snd oq) := by
          unfold parseAfterAuth
          simp [hpr1, hpr2, hqr1, hqr2]
        rw [hres]
        exact ⟨hpath, parseParams_good hnq⟩
      · have hres : parseAfterAuth (some ('/', rest)) = ('/' :: a, [], some rest2) := by
          unfold parseAfterAuth
          simp [hpr1, hpr2, hc2]
        rw [hres]
        exact ⟨hpath, by intro kv h; cases h⟩
  by_cases hcq : c = '?'
  · subst hcq
    rcases hqr : splitFirst (fun c => decide (c = '#')) rest with ⟨q, oq⟩
    have hqr1 : (splitFirst (fun c => decide (c = '#')) rest).1 = q := by rw [hqr]
    have hqr2 : (splitFirst (fun c => decide (c = '#')) rest).2 = oq := by rw [hqr]
    have hnq : ('#' : Char) ∉ q := by
      cases oq with
      | none =>
        have hinv2 := splitFirst_none_inv (p := fun c => decide (c = '#'))
          (l := rest) hqr2
        rw [hqr1] at hinv2
        intro hm
        have := hinv2.2 _ (hinv2.1 ▸ hm)
        simp at this
      | some x =>
        obtain ⟨c3, r3⟩ := x
        have hinv2 := splitFirst_some_inv (p := fun c => decide (c = '#'))
          (l := rest) hqr2
        rw [hqr1] at hinv2
        intro hm
        simpa using hinv2.2.2 _ hm
    have hres : parseAfterAuth (some ('?', rest))
        = (['/'], parseParams q, Option.map Prod.snd oq) := by
      unfold parseAfterAuth
      simp [hqr1, hqr2]
    rw [hres]
    exact ⟨⟨[], rfl, by simp, by simp⟩, parseParams_good hnq⟩
  · have hres : parseAfterAuth (some (c, rest)) = (['/'], [], some rest) := by
      unfold parseAfterAuth
      simp [hc, hcq]
    rw [hres]
    exact ⟨⟨[], rfl, by simp, by simp⟩, by intro kv h; cases h⟩

theorem parse_good {l : List Char} {u : UrlParts} (h : parseUrlChars l = some u) :
    GoodCore u := by
  unfold parseUrlChars at h
  split at h
  · exact absurd h (by simp)
  rename_i sch c0 rest h1
  by_cases hsch : sch = []
  · rw [if_pos hsch] at h
    cases h
  rw [if_neg hsch] at h
  have hschC : ∀ x ∈ sch, ¬ x = ':' := by
    have hinv := splitFirst_some_inv (p := fun c => decide (c = ':')) (l := l)
      (by rw [h1])
    rw [h1] at hinv
    intro x hx
    have := hinv.2.2 x hx
    simpa using this
  split at h
  · rename_i rest2
    dsimp only at h
    rcases har : splitFirst
        (fun c => (decide (c = '/') || decide (c = '?') || decide (c = '#'))) rest2
      with ⟨auth, oa⟩
    have har1 : (splitFirst
        (fun c => (decide (c = '/') || decide (c = '?') || decide (c = '#'))) rest2).1
        = auth := by rw [har]
    have har2 : (splitFirst
        (fun c => (decide (c = '/') || decide (c = '?') || decide (c = '#'))) rest2).2
        = oa := by rw [har]
    have hauthP : ∀ x ∈ auth, (decide (x = '/') || decide (x = '?') || decide (x = '#'))
        = false := by
      cases oa with
      | none =>
        have hinv := splitFirst_none_inv
          (p := fun c => (decide (c = '/') || decide (c = '?') || decide (c = '#')))
          (l := rest2) har2
        rw [har1] at hinv
        intro x hx
        exact hinv.2 x (hinv.1 ▸ hx)
      | some cv =>
        obtain ⟨cx, rx⟩ := cv
        have hinv := splitFirst_some_inv
          (p := fun c => (decide (c = '/') || decide (c = '?') || decide (c = '#')))
          (l := rest2) har2
        rw [har1] at hinv
        exact hinv.2.2
    rw [har1, har2] at h
    rcases hhp : splitFirst (fun c => decide (c = ':')) auth with ⟨host, op⟩
    have hhp1 : (splitFirst (fun c => decide (c = ':')) auth).1 = host := by rw [hhp]
    have hhp2 : (splitFirst (fun c => decide (c = ':')) auth).2 = op := by rw [hhp]
    have hhostC : ∀ x ∈ host, ¬ x = ':' := by
      cases op with
      | none =>
        have hinv := splitFirst_none_inv (p := fun c => decide (c = ':'))
          (l := auth) hhp2
        rw [hhp1] at hinv
        intro x hx
        have := hinv.2 x (hinv.1 ▸ hx)
        simpa using this
      | some cv =>
        obtain ⟨cx, rx⟩ := cv
        have hinv := splitFirst_some_inv (p := fun c => decide (c = ':'))
          (l := auth) hhp2
        rw [hhp1] at hinv
        intro x hx
        have := hinv.2.2 x hx
        simpa using this
    have hhostSub : ∀ x ∈ host, x ∈ auth := by
      cases op with
      | none =>
        have hinv := splitFirst_none_inv (p := fun c => decide (c = ':'))
          (l := auth) hhp2
        rw [hhp1] at hinv
        intro x hx
        exact hinv.1 ▸ hx
      | some cv =>
        obtain ⟨cx, rx⟩ := cv
        have hinv := splitFirst_some_inv (p := fun c => decide (c = ':'))
          (l := auth) hhp2
        rw [hhp1] at hinv
        intro x hx
        rw [hinv.1]
        exact List.mem_append.mpr (Or.inl hx)
    rw [hhp1, hhp2] at h
    by_cases hhost : host = []
    · rw [if_pos hhost] at h
      cases h
    rw [if_neg hhost] at h
    split at h
    · have hu := Option.some_inj.mp h
      subst hu
      obtain ⟨hpath, hparams⟩ := parseAfterAuth_good oa
      refine ⟨hsch, hschC, hhost, ?_, hpath, hparams⟩
      intro x hx
      have h3 := hauthP x (hhostSub x hx)
      have hc1 := hhostC x hx
      simp only [Bool.or_eq_false_iff, decide_eq_false_iff_not] at h3
      exact ⟨hc1, h3.1.1, h3.1.2, h3.2⟩
    · cases h
  · cases h

theorem stripTrailingSlash_idem {p : List Char} (hs : SafePath p) :
    stripTrailingSlash (stripTrailingSlash p) = stripTrailingSlash p := by
  unfold stripTrailingSlash
  by_cases h : p ≠ ['/'] ∧ p.getLast? = some '/'
  · rw [if_pos h]
    obtain ⟨h1, h2⟩ := h
    have hpne : p ≠ [] := by
      intro hh
      rw [hh] at h2
      cases h2
    have hlast : p.getLast hpne = '/' := by
      have hg := List.getLast?_eq_getLast p hpne
      rw [hg] at h2
      exact Option.some_inj.mp h2
    have hdecomp : p.dropLast ++ ['/'] = p := by
      have hd := List.dropLast_append_getLast hpne
      rw [hlast] at hd
      exact hd
    by_cases hq : p.dropLast ≠ ['/'] ∧ p.dropLast.getLast? = some '/'
    · exfalso
      obtain ⟨hq1, hq2⟩ := hq
      have hqne : p.dropLast ≠ [] := by
        intro hh
        rw [hh] at hq2
        cases hq2
      have hql : p.dropLast.getLast hqne = '/' := by
        have hg := List.getLast?_eq_getLast _ hqne
        rw [hg] at hq2
        exact Option.some_inj.mp hq2
      have hqd : p.dropLast.dropLast ++ ['/'] = p.dropLast := by
        have hd := List.dropLast_append_getLast hqne
        rw [hql] at hd
        exact hd
      have hp2 : p = p.dropLast.dropLast ++ ['/', '/'] := by
        rw [← hdecomp, ← hqd]
        simp
      rcases hs with hs | hs
      · apply hq1
        rw [hs]
        rfl
      · exact hs ⟨p.dropLast.dropLast, hp2.symm⟩
    · rw [if_neg hq]
  · rw [if_neg h, if_neg h]

theorem stripTrailingSlash_safe {p : List Char} (hs : SafePath p) :
    SafePath (stripTrailingSlash p) := by
  unfold stripTrailingSlash
  by_cases h : p ≠ ['/'] ∧ p.getLast? = some '/'
  · rw [if_pos h]
    by_cases hq2 : p.dropLast = ['/', '/']
    · left
      exact hq2
    right
    rintro ⟨tt, htt⟩
    obtain ⟨h1, h2⟩ := h
    have hpne : p ≠ [] := by
      intro hh
      rw [hh] at h2
      cases h2
    have hlast : p.getLast hpne = '/' := by
      have hg := List.getLast?_eq_getLast p hpne
      rw [hg] at h2
      exact Option.some_inj.mp h2
    have hdecomp : p.dropLast ++ ['/'] = p := by
      have hd := List.dropLast_append_getLast hpne
      rw [hlast] at hd
      exact hd
    rcases hs with hs | hs
    · have hcontra := congrArg List.length htt
      have hdl : p.dropLast = ['/'] := by
        rw [hs]
        rfl
      rw [hdl] at hcontra
      simp at hcontra
    · refine hs ⟨tt ++ ['/'], ?_⟩
      rw [← hdecomp, ← htt]
      simp
  · rw [if_neg h]
    exact hs

theorem sortParams_idem (ps : List (List Char × List Char)) :
    sortParams (sortParams ps) = sortParams ps := by
  haveI : IsTotal (List Char × List Char) paramLe := ⟨fun a b => leChars_total _ _⟩
  haveI : IsTrans (List Char × List Char) paramLe :=
    ⟨fun _ _ _ hab hbc => leChars_trans hab hbc⟩
  exact List.Sorted.insertionSort_eq (List.sorted_insertionSort paramLe ps)

theorem canon_goodCore {u : UrlParts} (hg : GoodCore u) : GoodCore (canonUrl u) := by
  obtain ⟨hs1, hs2, hh1, hh2, ⟨t, hpath, ht1, ht2⟩, hps⟩ := hg
  refine ⟨hs1, hs2, hh1, hh2, ?_, ?_⟩
  · show ∃ t', stripTrailingSlash u.path = '/' :: t' ∧ '?' ∉ t' ∧ '#' ∉ t'
    rw [hpath]
    unfold stripTrailingSlash
    by_cases h : ('/' :: t : List Char) ≠ ['/'] ∧ ('/' :: t : List Char).getLast? = some '/'
    · rw [if_pos h]
      have htne : t ≠ [] := by
        intro hh
        exact h.1 (by rw [hh])
      refine ⟨t.dropLast, List.dropLast_cons_of_ne_nil htne, ?_, ?_⟩
      · intro hm
        exact ht1 (List.dropLast_subset _ hm)
      · intro hm
        exact ht2 (List.dropLast_subset _ hm)
    · rw [if_neg h]
      exact ⟨t, rfl, ht1, ht2⟩
  · intro kv hkv
    have hmem : kv ∈ u.params := by
      have hperm := List.perm_insertionSort paramLe u.params
      exact hperm.subset hkv
    exact hps kv hmem

theorem canonUrl_idem {u : UrlParts} (hs : SafePath u.path) :
    canonUrl (canonUrl u) = canonUrl u := by
  simp [canonUrl, stripTrailingSlash_idem hs, sortParams_idem]

/-- **C5** (amended): `normalizeUrl` is idempotent for every input that fails to
parse, and for every parseable input whose pathname does not end in a double
slash (or is exactly `//`).  The restriction is forced: the code strips only one
trailing slash per pass (`pathname.slice(0, -1)`), so a path with two or more
trailing slashes beyond the root loses exactly one slash per application — see
the counterexample at `http://a///`. -/
theorem normalizeUrl_idem (s : String)
    (hs : ∀ u, parseUrlChars s.data = some u → SafePath u.path) :
    normalizeUrl (normalizeUrl s) = normalizeUrl s := by
  cases hp : parseUrlChars s.data with
  | none => simp [normalizeUrl, normalizeUrlChars, hp]
  | some u =>
    have hsp := hs u hp
    have hg := parse_good hp
    have hgc : GoodCore (canonUrl u) := canon_goodCore hg
    have hround : parseUrlChars (serializeUrl (canonUrl u)) = some (canonUrl u) :=
      parse_serializeUrl hgc rfl
    have hci : canonUrl (canonUrl u) = canonUrl u := canonUrl_idem hsp
    unfold normalizeUrl
    simp only [normalizeUrlChars, hp, hround]
    rw [hci]

/-- **C5** counterexample: `http://a///` (pathname `///`).  One application
yields `http://a//`, a second yields `http://a/`: the claimed idempotence for
*every* input string fails on the code. -/
theorem normalizeUrl_not_idem_cex :
    normalizeUrl (normalizeUrl "http://a///") ≠ normalizeUrl "http://a///" := by
  decide

/-- **C5** witness: a URL with a single trailing slash (the spec's own example)
normalizes idempotently. -/
theorem normalizeUrl_idem_witness :
    normalizeUrl (normalizeUrl "https://example.com/x/pricing.html/")
      = normalizeUrl "https://example.com/x/pricing.html/" := by
  refine normalizeUrl_idem _ ?_
  intro u hu
  have hconc : parseUrlChars "https://example.com/x/pricing.html/".data
      = some ⟨"https".data, "example.com".data, [], "/x/pricing.html/".data, [], none⟩ := by
    decide
  rw [hconc] at hu
  obtain rfl := (Option.some_inj.mp hu).symm
  right
  decide

/-! ### Crawler state extension (for C4) -/

theorem crawlExt_refl (st : CrawlState) : CrawlExt st st :=
  ⟨⟨[], by simp⟩, ⟨[], by simp⟩, ⟨[], by simp⟩⟩

theorem crawlExt_trans {a b c : CrawlState} (h1 : CrawlExt a b) (h2 : CrawlExt b c) :
    CrawlExt a c := by
  obtain ⟨⟨t1, h1v⟩, ⟨t2, h1d⟩, ⟨t3, h1f⟩⟩ := h1
  obtain ⟨⟨s1, h2v⟩, ⟨s2, h2d⟩, ⟨s3, h2f⟩⟩ := h2
  refine ⟨⟨t1 ++ s1, ?_⟩, ⟨t2 ++ s2, ?_⟩, ⟨t3 ++ s3, ?_⟩⟩
  · rw [h2v, h1v, List.append_assoc]
  · rw [h2d, h1d, List.append_assoc]
  · rw [h2f, h1f, List.append_assoc]

theorem crawlExt_addDiscovered (env : CrawlEnv) (url : String) (st : CrawlState) :
    CrawlExt st (addDiscoveredUrl env url st).1 := by
  unfold addDiscoveredUrl
  by_cases h : (alookup url st.discovered).isSome
  · simp only [h, if_true]
    exact crawlExt_refl _
  · simp only [h, Bool.false_eq_true, if_false]
    cases hh : hostOfStr url with
    | none => exact crawlExt_refl _
    | some host =>
      exact ⟨⟨[], by simp⟩,
        ⟨[(url, { url := url, source := .crawl, domain := host,
                  lastModified := none, discoveredAt := env.now })], rfl⟩,
        ⟨[], by simp⟩⟩

theorem crawlPage_extends_of (env : CrawlEnv) (maxDepth maxPages : Nat) (url : String)
    (depth : Nat) (st : CrawlState)
    (hproc : depth < maxDepth → ∀ links st',
      CrawlExt st' (processLinks env maxDepth maxPages depth links st')) :
    CrawlExt st (crawlPage env maxDepth maxPages url depth st).1 := by
  rw [crawlPage.eq_def]
  by_cases hg : url ∈ st.visitedPages ∨ maxPages ≤ st.visitedPages.length
  · rw [if_pos hg]
    exact crawlExt_refl _
  rw [if_neg hg]
  cases hh : hostOfStr url with
  | none => exact crawlExt_refl _
  | some host =>
    dsimp only
    by_cases hvik : (!isVikingDomain host) = true
    · rw [if_pos hvik]
      exact crawlExt_refl _
    rw [if_neg hvik]
    have e1 : CrawlExt st
        ({ st with visitedPages := st.visitedPages ++ [url] } : CrawlState) :=
      ⟨⟨[url], rfl⟩, ⟨[], by simp⟩, ⟨[], by simp⟩⟩
    have e2 : CrawlExt ({ st with visitedPages := st.visitedPages ++ [url] } : CrawlState)
        (if env.isPricingUrl url = true
         then addDiscoveredUrl env url { st with visitedPages := st.visitedPages ++ [url] }
         else ({ st with visitedPages := st.visitedPages ++ [url] }, false)).1 := by
      by_cases hp : env.isPricingUrl url = true
      · rw [if_pos hp]
        exact crawlExt_addDiscovered env url _
      · rw [if_neg hp]
        exact crawlExt_refl _
    have e12 := crawlExt_trans e1 e2
    generalize hpr : (if env.isPricingUrl url = true
        then addDiscoveredUrl env url { st with visitedPages := st.visitedPages ++ [url] }
        else ({ st with visitedPages := st.visitedPages ++ [url] }, false))
        = pr at e12 ⊢
    by_cases h2 : pr.2 = true
    · rw [if_pos h2]
      exact e12
    rw [if_neg h2]
    by_cases h3 : maxDepth ≤ depth
    · rw [if_pos h3]
      exact e12
    rw [if_neg h3]
    have e3 : CrawlExt pr.1
        ({ pr.1 with fetched := pr.1.fetched ++ [url] } : CrawlState) :=
      ⟨⟨[], by simp⟩, ⟨[], by simp⟩, ⟨[url], rfl⟩⟩
    cases hw : env.web url with
    | none => exact crawlExt_trans e12 e3
    | some links =>
      exact crawlExt_trans e12 (crawlExt_trans e3 (hproc (by omega) links _))

theorem processLinks_nil (env : CrawlEnv) (maxDepth maxPages depth : Nat)
    (st : CrawlState) : processLinks env maxDepth maxPages depth [] st = st := by
  rw [processLinks.eq_def]

theorem processLinks_cons (env : CrawlEnv) (maxDepth maxPages depth : Nat)
    (link : String) (rest : List String) (st : CrawlState) :
    processLinks env maxDepth maxPages depth (link :: rest) st
      = if maxPages ≤ st.visitedPages.length then st
        else if env.isPricingUrl link = true then
          (if (addDiscoveredUrl env link st).2 = true then (addDiscoveredUrl env link st).1
           else processLinks env maxDepth maxPages depth rest (addDiscoveredUrl env link st).1)
        else if shouldFollowLink link depth maxDepth = some true then
          (if (crawlPage env maxDepth maxPages link (depth + 1) st).2 = true
           then (crawlPage env maxDepth maxPages link (depth + 1) st).1
           else processLinks env maxDepth maxPages depth rest
             (crawlPage env maxDepth maxPages link (depth + 1) st).1)
        else if shouldFollowLink link depth maxDepth = none then st
        else processLinks env maxDepth maxPages depth rest st := by
  rw [processLinks.eq_def]
  simp only []
  split
  · rfl
  split
  · rfl
  by_cases hf : shouldFollowLink link depth maxDepth = some true
  · rw [dif_pos hf, if_pos hf]
  · rw [dif_neg hf, if_neg hf]

theorem processLinks_extends_of (env : CrawlEnv) (maxDepth maxPages depth : Nat)
    (hcrawl : ¬ (maxDepth - 1 ≤ depth) → ∀ url st,
      CrawlExt st (crawlPage env maxDepth maxPages url (depth + 1) st).1) :
    ∀ (links : List String) (st : CrawlState),
      CrawlExt st (processLinks env maxDepth maxPages depth links st) := by
  intro links
  induction links with
  | nil =>
    intro st
    rw [processLinks_nil]
    exact crawlExt_refl _
  | cons link rest ih =>
    intro st
    rw [processLinks_cons]
    by_cases h1 : maxPages ≤ st.visitedPages.length
    · rw [if_pos h1]
      exact crawlExt_refl _
    rw [if_neg h1]
    by_cases h2 : env.isPricingUrl link = true
    · rw [if_pos h2]
      have e1 := crawlExt_addDiscovered env link st
      by_cases h3 : (addDiscoveredUrl env link st).2 = true
      · rw [if_pos h3]
        exact e1
      · rw [if_neg h3]
        exact crawlExt_trans e1 (ih _)
    rw [if_neg h2]
    by_cases hf : shouldFollowLink link depth maxDepth = some true
    · rw [if_pos hf]
      have hnd : ¬ (maxDepth - 1 ≤ depth) := by
        intro hc
        unfold shouldFollowLink at hf
        rw [if_pos hc] at hf
        cases hf
      have e1 := hcrawl hnd link st
      by_cases h4 : (crawlPage env maxDepth maxPages link (depth + 1) st).2 = true
      · rw [if_pos h4]
        exact e1
      · rw [if_neg h4]
        exact crawlExt_trans e1 (ih _)
    rw [if_neg hf]
    by_cases h5 : shouldFollowLink link depth maxDepth = none
    · rw [if_pos h5]
      exact crawlExt_refl _
    · rw [if_neg h5]
      exact ih _

theorem crawl_extends_all (env : CrawlEnv) (maxDepth maxPages : Nat) : ∀ k : Nat,
    (∀ url depth st, maxDepth - depth ≤ k →
      CrawlExt st (crawlPage env maxDepth maxPages url depth st).1)
    ∧ (∀ depth links st, maxDepth - depth ≤ k →
      CrawlExt st (processLinks env maxDepth maxPages depth links st)) := by
  intro k
  induction k with
  | zero =>
    have hproc0 : ∀ depth links st, maxDepth - depth ≤ 0 →
        CrawlExt st (processLinks env maxDepth maxPages depth links st) := by
      intro depth links st hk
      refine processLinks_extends_of env maxDepth maxPages depth ?_ links st
      intro hnd
      exact absurd (by omega : maxDepth - 1 ≤ depth) hnd
    refine ⟨?_, hproc0⟩
    intro url depth st hk
    refine crawlPage_extends_of env maxDepth maxPages url depth st ?_
    intro hdlt
    exact absurd hdlt (by omega)
  | succ k ih =>
    have hproc : ∀ depth links st, maxDepth - depth ≤ k + 1 →
        CrawlExt st (processLinks env maxDepth maxPages depth links st) := by
      intro depth links st hk
      refine processLinks_extends_of env maxDepth maxPages depth ?_ links st
      intro hnd url st'
      exact ih.1 url (depth + 1) st' (by omega)
    refine ⟨?_, hproc⟩
    intro url depth st hk
    refine crawlPage_extends_of env maxDepth maxPages url depth st ?_
    intro _ links st'
    exact hproc depth links st' hk

theorem crawlPage_extends (env : CrawlEnv) (maxDepth maxPages : Nat) (url : String)
    (depth : Nat) (st : CrawlState) :
    CrawlExt st (crawlPage env maxDepth maxPages url depth st).1 :=
  (crawl_extends_all env maxDepth maxPages (maxDepth - depth)).1 url depth st (le_refl _)

theorem processLinks_extends (env : CrawlEnv) (maxDepth maxPages depth : Nat)
    (links : List String) (st : CrawlState) :
    CrawlExt st (processLinks env maxDepth maxPages depth links st) :=
  (crawl_extends_all env maxDepth maxPages (maxDepth - depth)).2 depth links st (le_refl _)

/-- **C4** (amended): when the crawler visits a URL that itself matches the
target (pricing) pattern — not yet visited, within the page budget, on an
allowed domain, not already discovered — it records it as a discovered target
with `source = crawl`, but it does **not** stop there: unless `depth ≥ maxDepth`
the page is still fetched (a browser page is opened and navigated) and its
links are processed like any other page; only the depth cap prevents the fetch.
The claim's "does not traverse further from it" fails on the code — there is no
early return after `addDiscoveredUrl` (link-crawler.ts, lines 97-105). -/
theorem crawlPage_records_pricing (env : CrawlEnv) (maxDepth maxPages : Nat)
    (url : String) (depth : Nat) (st : CrawlState) (host : String)
    (hv : url ∉ st.visitedPages) (hcap : st.visitedPages.length < maxPages)
    (hh : hostOfStr url = some host) (hd : isVikingDomain host = true)
    (hp : env.isPricingUrl url = true) (hnd : alookup url st.discovered = none) :
    alookup url (crawlPage env maxDepth maxPages url depth st).1.discovered
      = some { url := url, source := .crawl, domain := host,
               lastModified := none, discoveredAt := env.now }
    ∧ (depth < maxDepth → url ∈ (crawlPage env maxDepth maxPages url depth st).1.fetched)
    ∧ (maxDepth ≤ depth →
        (crawlPage env maxDepth maxPages url depth st).1.fetched = st.fetched) := by
  have hguard : ¬ (url ∈ st.visitedPages ∨ maxPages ≤ st.visitedPages.length) := by
    push_neg
    exact ⟨hv, by omega⟩
  have hvik : ¬ ((!isVikingDomain host) = true) := by simp [hd]
  have hpr : (if env.isPricingUrl url = true
      then addDiscoveredUrl env url { st with visitedPages := st.visitedPages ++ [url] }
      else ({ st with visitedPages := st.visitedPages ++ [url] }, false))
      = ({ st with
            visitedPages := st.visitedPages ++ [url],
            discovered := st.discovered ++ [(url,
              { url := url, source := .crawl, domain := host,
                lastModified := none, discoveredAt := env.now })] }, false) := by
    rw [if_pos hp]
    unfold addDiscoveredUrl
    simp [hnd, hh]
  have hlookA : alookup url (st.discovered
      ++ [(url, ({ url := url, source := .crawl, domain := host,
                   lastModified := none, discoveredAt := env.now } : DiscoveredUrl))])
      = some { url := url, source := .crawl, domain := host,
               lastModified := none, discoveredAt := env.now } := by
    rw [alookup_append, hnd]
    simp [alookup]
  rw [crawlPage.eq_def, if_neg hguard, hh]
  dsimp only
  rw [if_neg hvik]
  simp only [hpr]
  rw [if_neg Bool.false_ne_true]
  by_cases hdep : maxDepth ≤ depth
  · rw [if_pos hdep]
    refine ⟨hlookA, ?_, ?_⟩
    · intro hlt
      omega
    · intro _
      rfl
  · rw [if_neg hdep]
    cases hw : env.web url with
    | none =>
      refine ⟨hlookA, ?_, ?_⟩
      · intro _
        exact List.mem_append.mpr (Or.inr (List.mem_singleton.mpr rfl))
      · intro hcon
        exact absurd hcon hdep
    | some links =>
      have hext := processLinks_extends env maxDepth maxPages depth links
        ({ st with
            visitedPages := st.visitedPages ++ [url],
            discovered := st.discovered ++ [(url,
              { url := url, source := .crawl, domain := host,
                lastModified := none, discoveredAt := env.now })],
            fetched := st.fetched ++ [url] })
      obtain ⟨-, ⟨td, hdisc⟩, ⟨tf, hfetch⟩⟩ := hext
      dsimp only
      refine ⟨?_, ?_, ?_⟩
      · rw [hdisc]
        dsimp only at hdisc ⊢
        rw [alookup_append]
        rw [alookup_append, hnd] at hlookA ⊢
        simp only [Option.none_or] at hlookA ⊢
        rw [hlookA]
        rfl
      · intro _
        rw [hfetch]
        exact List.mem_append.mpr
          (Or.inl (List.mem_append.mpr (Or.inr (List.mem_singleton.mpr rfl))))
      · intro hcon
        exact absurd hcon hdep

/-- **C4** witness: a concrete pricing URL visited at depth 0 with budget left. -/
theorem crawlPage_records_pricing_witness :
    alookup "https://www.viking.com/a/pricing.html"
        (crawlPage crawlEnvSample 3 100 "https://www.viking.com/a/pricing.html" 0
          crawlSt0).1.discovered
      = some { url := "https://www.viking.com/a/pricing.html", source := .crawl,
               domain := "www.viking.com", lastModified := none,
               discoveredAt := crawlEnvSample.now }
    ∧ ((0 : Nat) < 3 →
        "https://www.viking.com/a/pricing.html"
          ∈ (crawlPage crawlEnvSample 3 100 "https://www.viking.com/a/pricing.html" 0
              crawlSt0).1.fetched)
    ∧ ((3 : Nat) ≤ 0 →
        (crawlPage crawlEnvSample 3 100 "https://www.viking.com/a/pricing.html" 0
          crawlSt0).1.fetched = crawlSt0.fetched) :=
  crawlPage_records_pricing crawlEnvSample 3 100 "https://www.viking.com/a/pricing.html" 0
    crawlSt0 "www.viking.com" (by decide) (by decide) (by decide) (by decide)
    (by decide) (by decide)

/-- **C4** counterexample: the claim says a URL matching the pricing pattern is
"not traversed further: no page fetch is performed for that URL".  On the code,
crawling the matching URL at depth 0 both records it *and* fetches it (the URL
ends up in the fetch log). -/
theorem crawlPage_fetches_pricing_cex :
    (alookup "https://www.viking.com/a/pricing.html"
        (crawlPage crawlEnvSample 3 100 "https://www.viking.com/a/pricing.html" 0
          crawlSt0).1.discovered).isSome = true
    ∧ "https://www.viking.com/a/pricing.html"
        ∈ (crawlPage crawlEnvSample 3 100 "https://www.viking.com/a/pricing.html" 0
            crawlSt0).1.fetched := by
  have hw : crawlEnvSample.web "https://www.viking.com/a/pricing.html" = some [] := rfl
  simp only [crawlPage.eq_def, hw, processLinks.eq_def]
  decide
